import Mathlib

/-!
# Verification of the sabus shared-memory object bus

Shallow embedding of the repository's core modules and proofs of the
specification claims about them.

* `Sabus.SO` embeds `src/shared-object.ts` (the current `SharedObject` with a
  five-word control region, a ticket write lock and sequence-locked reads).
* `Sabus.V7` embeds the seven-word `SharedObject` variant found in the
  repository (the compiled artifact with `markWriterThreadDied`,
  `CTRL_WRITE_REENTRANCE_DEPTH` and `CTRL_FATAL_WRITE_OWNER_DIED`).
* `Sabus.Schema` embeds `src/schema.ts` (layout compiler, `readSnapshot`,
  `writeFields`).
* `Sabus.Runtime` embeds `SharedRuntime.createSharedObject` from
  `src/shared-runtime.ts`.

JavaScript 32-bit integer arithmetic (`Int32Array` storage, `>>> 0`,
`Atomics.add` wrap-around) is modelled with explicit `% 2^32` arithmetic on
`Int`/`Nat`.
-/

namespace Sabus

/-! Two to the thirty-second power, the modulus of JavaScript 32-bit words. -/
def two32 : Int := 4294967296

/-- The value actually held by an `Int32Array` cell after storing the integer
`z`: JavaScript `ToInt32`, a wrap into `[-2^31, 2^31)`. -/
def wrap32 (z : Int) : Int := (z + 2147483648) % 4294967296 - 2147483648

/-- JavaScript `z >>> 0` on an integer: reinterpret as unsigned 32-bit. -/
def toU32 (z : Int) : Nat := (z % 4294967296).toNat


/-- Errors thrown by the shared-object / runtime code (`throw new Error(...)`
sites, abstracted to their kind). `cbError` stands for an arbitrary error
raised by a user callback. -/
inductive JsError where
  | byteLengthNotPositive (got : Int)
  | reentrantWrite (id : String)
  | releaseNotOwner
  | poisoned (id : String)
  | invalidDepth (d : Int)
  | duplicateObject (id : String)
  | objectNotFound (id : String)
  | schemaViolation (code : Nat)
  | cbError (code : Nat)
deriving DecidableEq, Repr

/-- Result of a user write callback: normal return or a raised error.
The return value is abstracted to a `Nat`. -/
inductive CbResult where
  | ok (ret : Nat)
  | err (e : JsError)
deriving DecidableEq, Repr

namespace SO

/-! ## `src/shared-object.ts` (HEAD version, control region of five words)

Control word indices and `CTRL_WORDS`, from the top of the file. -/

def CTRL_PUBLISHED_SLOT : Nat := 0
def CTRL_SEQ : Nat := 1
def CTRL_NEXT_TICKET : Nat := 2
def CTRL_SERVING_TICKET : Nat := 3
def CTRL_WRITE_OWNER_THREAD_ID : Nat := 4
def CTRL_WORDS : Nat := 5

def NO_OWNER_THREAD_ID : Int := -1

/-- `Int32Array.BYTES_PER_ELEMENT`. -/
def BYTES_PER_ELEMENT : Nat := 4

/-- The control region of a shared object: one record field per control word,
in index order. Each field holds the signed 32-bit value of its word. -/
structure Ctrl where
  publishedSlot : Int
  seq : Int
  nextTicket : Int
  servingTicket : Int
  writeOwnerThreadId : Int
deriving DecidableEq, Repr

/-- `slotCount = 3` fixed inside `SharedObject.create`. -/
def slotCount : Nat := 3

/-- Control state set up by `SharedObject.create`:
`published_slot = -1`, `seq = 0`, tickets `0`, owner `-1`. -/
def createCtrl : Ctrl :=
  { publishedSlot := -1
    seq := 0
    nextTicket := 0
    servingTicket := 0
    writeOwnerThreadId := NO_OWNER_THREAD_ID }

/-- A created `SharedObject`: id, validated `byteLength` and control region.
The data region is kept abstract here (the schema layer models its bytes). -/
structure State where
  id : String
  byteLength : Int
  ctrl : Ctrl
deriving DecidableEq, Repr

/-- `SharedObject.create`: validates that `byteLength` is a positive integer
(the argument is an integer here, so only positivity can fail), allocates the
regions and initializes the control words. -/
def create (id : String) (byteLength : Int) : Except JsError State :=
  if byteLength ≤ 0 then .error (.byteLengthNotPositive byteLength)
  else .ok { id := id, byteLength := byteLength, ctrl := createCtrl }

/-- Number of bytes of the control `SharedArrayBuffer`:
`CTRL_WORDS * Int32Array.BYTES_PER_ELEMENT`. -/
def controlSabByteLength : Nat := CTRL_WORDS * BYTES_PER_ELEMENT

/-- A user callback, as it acts on the control region: it receives the current
control state and yields a result together with the control state at the time
it returns (a well-behaved callback only mutates slot bytes and leaves the
control words alone; a callback that re-enters the object's API is modelled by
letting it transform the state). -/
def Cb : Type := Ctrl → CbResult × Ctrl

/-- Outcome of `requestWrite` in a sequential semantics: a resolved value, a
raised error, or a suspension inside `waitForTurn` that no other thread will
ever wake (`blocked`). -/
inductive WriteOutcome where
  | ok (ret : Nat) (st : Ctrl)
  | err (e : JsError) (st : Ctrl)
  | blocked (st : Ctrl)
deriving DecidableEq

/-- `writeUnlocked`: loads `seq`, computes `nextSeq = (seq + 1) >>> 0` and
`slotIndex = nextSeq % slotCount`, runs the callback over the slot, and on
success publishes by storing `published_slot = slotIndex` then
`seq = nextSeq` (the store into the `Int32Array` wraps to signed). -/
def writeUnlocked (st : Ctrl) (cb : Cb) : WriteOutcome :=
  let nextSeq : Nat := toU32 (st.seq + 1)
  let slotIndex : Nat := nextSeq % slotCount
  match cb st with
  | (.ok r, st1) =>
      .ok r { st1 with publishedSlot := (slotIndex : Int), seq := wrap32 (nextSeq : Int) }
  | (.err e, st1) => .err e st1

/-- `releaseWriteLock`: throws when the caller does not own the lock, else
clears the owner and fetch-adds `serving_ticket` (with 32-bit wrap). -/
def releaseWriteLock (tid : Int) (st : Ctrl) : Except JsError Ctrl :=
  if st.writeOwnerThreadId ≠ tid then .error .releaseNotOwner
  else .ok { st with
    writeOwnerThreadId := NO_OWNER_THREAD_ID
    servingTicket := wrap32 (st.servingTicket + 1) }

/-- The `try { return await writeUnlocked(cb) } finally { releaseWriteLock() }`
block: whatever `writeUnlocked` did, the lock is released; an error raised by
the release itself supersedes the body's outcome. -/
def finishWrite (tid : Int) (w : WriteOutcome) : WriteOutcome :=
  match w with
  | .ok r st =>
      match releaseWriteLock tid st with
      | .ok st' => .ok r st'
      | .error e => .err e st
  | .err e st =>
      match releaseWriteLock tid st with
      | .ok st' => .err e st'
      | .error e2 => .err e2 st
  | .blocked st => .blocked st

/-- `requestWrite`, sequential semantics for the thread `tid`
(`localThreadId` in the source):
1. reentrance check against `CTRL_WRITE_OWNER_THREAD_ID`;
2. ticket fetch-add on `CTRL_NEXT_TICKET`;
3. `waitForTurn` — if `serving_ticket` is not this ticket the call suspends
   (`blocked`), since in a sequential semantics nobody else advances it;
4. store owner, run `writeUnlocked`, and `finally` release the lock. -/
def requestWrite (id : String) (tid : Int) (st : Ctrl) (cb : Cb) : WriteOutcome :=
  if st.writeOwnerThreadId = tid then .err (.reentrantWrite id) st
  else
    let ticket := st.nextTicket
    let st1 := { st with nextTicket := wrap32 (st.nextTicket + 1) }
    if st1.servingTicket ≠ ticket then .blocked st1
    else finishWrite tid (writeUnlocked { st1 with writeOwnerThreadId := tid } cb)

/-- A callback leaves the control words alone (it only writes slot bytes).
This is the behaviour of every callback that does not re-enter the API, and
also of a callback whose nested `requestWrite` is rejected up front. -/
def ControlPreserving (cb : Cb) : Prop := ∀ s, (cb s).2 = s

/-- One observable step of the control state of a shared object: any
`requestWrite` by any thread with any control-preserving callback, in any of
its three outcomes. (`readLatest` and `subscribe` never store to control.) -/
inductive Step : Ctrl → Ctrl → Prop where
  | wrOk (id : String) (tid : Int) (cb : Cb) (r : Nat) (st st' : Ctrl) :
      ControlPreserving cb → requestWrite id tid st cb = .ok r st' → Step st st'
  | wrErr (id : String) (tid : Int) (cb : Cb) (e : JsError) (st st' : Ctrl) :
      ControlPreserving cb → requestWrite id tid st cb = .err e st' → Step st st'
  | wrBlocked (id : String) (tid : Int) (cb : Cb) (st st' : Ctrl) :
      ControlPreserving cb → requestWrite id tid st cb = .blocked st' → Step st st'

/-- Control states reachable from a given state by `Step`s. -/
inductive Reachable : Ctrl → Ctrl → Prop where
  | refl (st : Ctrl) : Reachable st st
  | tail (st st' st'' : Ctrl) : Reachable st st' → Step st' st'' → Reachable st st''

/-! ## `readLatest` (sequence-locked read, four attempts)

One loop iteration performs three atomic loads (`seq`, `published_slot`,
`seq` again); under concurrency each load may observe a different memory
state, so an iteration is modelled by an oracle giving the three observed
values. -/

structure ReadObs where
  seq1 : Int
  slot : Int
  seq2 : Int

/-- The loop body of `readLatest` from attempt `attempts` on, with
`remaining` iterations left out of the four. Returns the pair
`(seq >>> 0, slotIndex)` of the snapshot, or `none`. -/
def readLatestGo (env : Nat → ReadObs) (attempts remaining : Nat) :
    Option (Nat × Int) :=
  match remaining with
  | 0 => none
  | n + 1 =>
    let o := env attempts
    if o.slot < 0 then none
    else if o.seq1 = o.seq2 then some (toU32 o.seq1, o.slot)
    else readLatestGo env (attempts + 1) n

/-- `readLatest`: four bounded attempts of the sequence-checked read. -/
def readLatest (env : Nat → ReadObs) : Option (Nat × Int) :=
  readLatestGo env 0 4

end SO

namespace V7

/-! ## The seven-word `SharedObject` variant

The repository also contains (as a compiled artifact) the `SharedObject`
variant with writer-death detection: seven control words, the last two being
`CTRL_WRITE_REENTRANCE_DEPTH` and `CTRL_FATAL_WRITE_OWNER_DIED`, plus the
operation `markWriterThreadDied`. This namespace embeds that variant. -/

def CTRL_WRITE_REENTRANCE_DEPTH : Nat := 5
def CTRL_FATAL_WRITE_OWNER_DIED : Nat := 6
def CTRL_WORDS : Nat := 7

/-- The seven-word control region, in index order. -/
structure Ctrl where
  publishedSlot : Int
  seq : Int
  nextTicket : Int
  servingTicket : Int
  writeOwnerThreadId : Int
  writeReentranceDepth : Int
  fatalWriterDied : Int
deriving DecidableEq, Repr

/-- Control state set up by this variant's `create`. -/
def createCtrl : Ctrl :=
  { publishedSlot := -1
    seq := 0
    nextTicket := 0
    servingTicket := 0
    writeOwnerThreadId := -1
    writeReentranceDepth := 0
    fatalWriterDied := 0 }

def Cb : Type := Ctrl → CbResult × Ctrl

inductive WriteOutcome where
  | ok (ret : Nat) (st : Ctrl)
  | err (e : JsError) (st : Ctrl)
  | blocked (st : Ctrl)
deriving DecidableEq

/-- `markWriterThreadDied`: no-op (returning `false`) unless the dead thread
currently owns the write lock; otherwise sets the fatal word, clears the
owner, resets the depth and notifies waiters. -/
def markWriterThreadDied (deadThreadId : Int) (st : Ctrl) : Bool × Ctrl :=
  if st.writeOwnerThreadId ≠ deadThreadId then (false, st)
  else
    (true, { st with
      fatalWriterDied := 1
      writeOwnerThreadId := -1
      writeReentranceDepth := 0 })

/-- `writeUnlocked` of the seven-word variant (same publish protocol). -/
def writeUnlocked (st : Ctrl) (cb : Cb) : WriteOutcome :=
  let nextSeq : Nat := toU32 (st.seq + 1)
  let slotIndex : Nat := nextSeq % 3
  match cb st with
  | (.ok r, st1) =>
      .ok r { st1 with publishedSlot := (slotIndex : Int), seq := wrap32 (nextSeq : Int) }
  | (.err e, st1) => .err e st1

/-- `releaseWriteLock` of the seven-word variant: owner check, depth check,
store the decremented depth, and only at depth zero clear the owner and
advance `serving_ticket`. (The decremented depth is within the signed 32-bit
range whenever the current depth is, so the store needs no wrap here.) -/
def releaseWriteLock (tid : Int) (st : Ctrl) : Except JsError Ctrl :=
  if st.writeOwnerThreadId ≠ tid then .error .releaseNotOwner
  else if st.writeReentranceDepth ≤ 0 then .error (.invalidDepth st.writeReentranceDepth)
  else
    let remaining := st.writeReentranceDepth - 1
    let st1 := { st with writeReentranceDepth := remaining }
    if 0 < remaining then .ok st1
    else .ok { st1 with
      writeOwnerThreadId := -1
      servingTicket := wrap32 (st1.servingTicket + 1) }

/-- The `try { writeUnlocked } finally { releaseWriteLock }` block. -/
def finishWrite (tid : Int) (w : WriteOutcome) : WriteOutcome :=
  match w with
  | .ok r st =>
      match releaseWriteLock tid st with
      | .ok st' => .ok r st'
      | .error e => .err e st
  | .err e st =>
      match releaseWriteLock tid st with
      | .ok st' => .err e st'
      | .error e2 => .err e2 st
  | .blocked st => .blocked st

/-- `requestWrite` of the seven-word variant, sequential semantics: fatal
check, then either the reentrant path (depth fetch-add, nested write) or the
ticket path (`waitForTurn` re-checks the fatal word each iteration; with no
other thread to advance `serving_ticket` a losing ticket suspends forever,
modelled as `blocked`). -/
def requestWrite (id : String) (tid : Int) (st : Ctrl) (cb : Cb) : WriteOutcome :=
  if st.fatalWriterDied ≠ 0 then .err (.poisoned id) st
  else if st.writeOwnerThreadId = tid then
    finishWrite tid
      (writeUnlocked { st with writeReentranceDepth := wrap32 (st.writeReentranceDepth + 1) } cb)
  else
    let ticket := st.nextTicket
    let st1 := { st with nextTicket := wrap32 (st.nextTicket + 1) }
    if st1.servingTicket ≠ ticket then .blocked st1
    else if st1.fatalWriterDied ≠ 0 then .err (.poisoned id) st1
    else
      finishWrite tid
        (writeUnlocked { st1 with writeOwnerThreadId := tid, writeReentranceDepth := 1 } cb)

/-- A callback that leaves the control words alone. -/
def ControlPreserving (cb : Cb) : Prop := ∀ s, (cb s).2 = s

/-- One observable step of the seven-word control state: a `requestWrite` by
any thread with a control-preserving callback (any outcome), or a
`markWriterThreadDied` for any thread id. -/
inductive Step : Ctrl → Ctrl → Prop where
  | wrOk (id : String) (tid : Int) (cb : Cb) (r : Nat) (st st' : Ctrl) :
      ControlPreserving cb → requestWrite id tid st cb = .ok r st' → Step st st'
  | wrErr (id : String) (tid : Int) (cb : Cb) (e : JsError) (st st' : Ctrl) :
      ControlPreserving cb → requestWrite id tid st cb = .err e st' → Step st st'
  | wrBlocked (id : String) (tid : Int) (cb : Cb) (st st' : Ctrl) :
      ControlPreserving cb → requestWrite id tid st cb = .blocked st' → Step st st'
  | died (t : Int) (st : Ctrl) : Step st (markWriterThreadDied t st).2

/-- States reachable by `Step`s. -/
inductive Reachable : Ctrl → Ctrl → Prop where
  | refl (st : Ctrl) : Reachable st st
  | tail (st st' st'' : Ctrl) : Reachable st st' → Step st' st'' → Reachable st st''

end V7

namespace Schema

/-! ## `src/schema.ts`

The `Type` enum, the layout compiler and the read/write primitives.

Modelling conventions:
* JavaScript numbers held by integer-typed fields are modelled as `Int`
  (DataView setters wrap modulo the type's width, as in the source).
* `float32` / `float64` fields are modelled by their IEEE-754 bit patterns
  (a `Nat` below `2^32` / `2^64` stored little-endian); `setFloat`/`getFloat`
  then compose to the identity exactly on representable values.
* A JS string is modelled as its list of Unicode scalar values;
  `TextEncoder`/`TextDecoder` become an explicit UTF-8 codec.
* A byte buffer (`DataView` over a slot) is a function `Nat → Nat`. -/

/-- The `Type` enum (members `Int8 = 1` … `Rgba8 = 10`). -/
inductive Ty where
  | int8
  | uint8
  | int16
  | uint16
  | int32
  | uint32
  | float32
  | float64
  | utf8
  | rgba8
deriving DecidableEq, Repr

/-- Numeric value of the enum member. -/
def Ty.enumVal : Ty → Int
  | .int8 => 1
  | .uint8 => 2
  | .int16 => 3
  | .uint16 => 4
  | .int32 => 5
  | .uint32 => 6
  | .float32 => 7
  | .float64 => 8
  | .utf8 => 9
  | .rgba8 => 10

/-- `isScalarType`. -/
def isScalarType : Ty → Bool
  | .utf8 => false
  | .rgba8 => false
  | _ => true

/-- `isArrayType`: scalar types plus `Rgba8`. -/
def isArrayType (t : Ty) : Bool := isScalarType t || t == .rgba8

/-- `SCALAR_TYPE_SIZE` (the source table has no `utf8`/`rgba8` entries and
never reads them; those cases are given a dummy 0 here). -/
def SCALAR_TYPE_SIZE : Ty → Nat
  | .int8 => 1
  | .uint8 => 1
  | .int16 => 2
  | .uint16 => 2
  | .int32 => 4
  | .uint32 => 4
  | .float32 => 4
  | .float64 => 8
  | .utf8 => 0
  | .rgba8 => 0

/-- `ARRAY_ELEMENT_SIZE` (no `utf8` entry in the source; dummy 0). -/
def ARRAY_ELEMENT_SIZE : Ty → Nat
  | .int8 => 1
  | .uint8 => 1
  | .int16 => 2
  | .uint16 => 2
  | .int32 => 4
  | .uint32 => 4
  | .float32 => 4
  | .float64 => 8
  | .utf8 => 0
  | .rgba8 => 4

/-- `ARRAY_VIEW_LENGTH_MULTIPLIER`: 1 everywhere except `Rgba8 ↦ 4`. -/
def ARRAY_VIEW_LENGTH_MULTIPLIER (t : Ty) : Nat :=
  if t = .rgba8 then 4 else 1

/-! The element type of the TypedArray class backing an array field
(`TYPE_ARRAY_CTOR`): `Rgba8` fields are backed by `Uint8Array`, every other
array field by the TypedArray of its own element type. -/
def viewClass : Ty → Ty
  | .rgba8 => .uint8
  | t => t

/-! A schema definition: field name to field kind, in declaration order
(scalar enum member, `[type, count]` pair, or nested schema object). -/
mutual
inductive FieldDef where
  | scalar (t : Ty)
  | arr (t : Ty) (count : Int)
  | nested (s : SchemaDef)
inductive SchemaDef where
  | nil
  | cons (name : String) (f : FieldDef) (rest : SchemaDef)
end

/-! A compiled field layout (`FieldLayout` in the source; the nested case
inlines the nested `Layout`'s fields and `byteLength`). -/
mutual
inductive FieldLayout where
  | scalarL (t : Ty) (offset : Nat)
  | arrayL (t : Ty) (offset : Nat) (count : Nat)
  | utf8L (offset : Nat) (byteLength : Nat)
  | nestedL (offset : Nat) (fields : LayoutFields) (byteLength : Nat)
inductive LayoutFields where
  | nil
  | cons (name : String) (f : FieldLayout) (rest : LayoutFields)
end

/-! The `Error`s thrown by schema.ts, by site. `unknownField` stands for the
TypeError raised when `writeFields` dereferences a key absent from the
layout. -/
inductive SchemaErr where
  | invalidScalarType (t : Ty)
  | invalidArrayType (t : Ty)
  | scalarTypeMisuse (key : String) (t : Ty)
  | lengthNotPositive (key : String) (got : Int)
  | unsupportedArrayType (key : String) (t : Ty)
  | expectedNumber (key : String)
  | wrongArrayClass (key : String) (t : Ty)
  | lengthMismatch (key : String) (expected got : Nat)
  | utf8TooLong (key : String) (cap got : Nat)
  | expectedString (key : String)
  | expectedObject (key : String)
  | unknownField (key : String)
deriving DecidableEq, Repr

/-! `Math.ceil(offset / align) * align` for natural numbers (align > 0). -/
def alignTo (offset a : Nat) : Nat := ((offset + a - 1) / a) * a

/-! `maxAlignment`: the maximum element alignment required by any field
(UTF-8 fields are skipped, i.e. contribute the neutral 1; invalid types
raise). -/
mutual
def maxAlignField : FieldDef → Except SchemaErr Nat
  | .scalar t =>
      if isScalarType t then .ok (SCALAR_TYPE_SIZE t)
      else .error (.invalidScalarType t)
  | .arr t _ =>
      if t = .utf8 then .ok 1
      else if isArrayType t then .ok (ARRAY_ELEMENT_SIZE t)
      else .error (.invalidArrayType t)
  | .nested s => maxAlignSchema s
def maxAlignSchema : SchemaDef → Except SchemaErr Nat
  | .nil => .ok 1
  | .cons _ f rest =>
      match maxAlignField f with
      | .error e => .error e
      | .ok a =>
          match maxAlignSchema rest with
          | .error e => .error e
          | .ok b => .ok (max a b)
end

/-! `computeLayout`, one field: aligns the running offset, produces the
field's layout and the offset after the field. Array lengths must be positive
(`assertPositiveInteger`); UTF-8 fields are not aligned. -/
mutual
def computeLayoutField (key : String) (f : FieldDef) (offset : Nat) :
    Except SchemaErr (FieldLayout × Nat) :=
  match f with
  | .nested s =>
      match computeLayoutSchema s 0 with
      | .error e => .error e
      | .ok nested =>
          match maxAlignSchema s with
          | .error e => .error e
          | .ok align =>
              let o := alignTo offset align
              .ok (.nestedL o nested.1 nested.2, o + nested.2)
  | .scalar t =>
      if isScalarType t then
        let elemSize := SCALAR_TYPE_SIZE t
        let o := alignTo offset elemSize
        .ok (.scalarL t o, o + elemSize)
      else .error (.scalarTypeMisuse key t)
  | .arr t count =>
      if count ≤ 0 then .error (.lengthNotPositive key count)
      else
        let c := count.toNat
        if t = .utf8 then .ok (.utf8L offset c, offset + c)
        else if isArrayType t then
          let elemSize := ARRAY_ELEMENT_SIZE t
          let o := alignTo offset elemSize
          .ok (.arrayL t o c, o + elemSize * c)
        else .error (.unsupportedArrayType key t)
def computeLayoutSchema : SchemaDef → Nat → Except SchemaErr (LayoutFields × Nat)
  | .nil, offset => .ok (.nil, offset)
  | .cons key f rest, offset =>
      match computeLayoutField key f offset with
      | .error e => .error e
      | .ok fl =>
          match computeLayoutSchema rest fl.2 with
          | .error e => .error e
          | .ok r => .ok (.cons key fl.1 r.1, r.2)
end

/-! `computeLayout`: walk the schema from offset 0; the final offset is the
`byteLength` (no trailing padding). -/
def computeLayout (s : SchemaDef) : Except SchemaErr (LayoutFields × Nat) :=
  computeLayoutSchema s 0

/-! Runtime values for fields: a number, a typed array (tagged with the class
it is an instance of), a string (Unicode scalar values), or a nested partial
record. An entry with JS value `undefined` is skipped by `writeFields` and is
modelled as absent. -/
mutual
inductive Value where
  | num (v : Int)
  | arrV (cls : Ty) (elems : List Int)
  | strV (s : List Nat)
  | nestedV (vs : Values)
inductive Values where
  | nil
  | cons (name : String) (v : Value) (rest : Values)
end

/-! A byte buffer: the byte stored at each index. -/
def Buf : Type := Nat → Nat

/-- Bulk store of a byte list at `start` (`TypedArray.prototype.set`). -/
def writeBytes (buf : Buf) (start : Nat) (bs : List Nat) : Buf :=
  fun i => if start ≤ i ∧ i < start + bs.length then bs.getD (i - start) 0 else buf i

/-- Read `len` bytes starting at `start`. -/
def readBytes (buf : Buf) (start len : Nat) : List Nat :=
  (List.range len).map (fun i => buf (start + i))

/-- Little-endian byte decomposition, `w` bytes. -/
def leBytes : Nat → Nat → List Nat
  | 0, _ => []
  | w + 1, v => v % 256 :: leBytes w (v / 256)

/-- Little-endian byte recomposition. -/
def leVal : List Nat → Nat
  | [] => 0
  | b :: bs => b + 256 * leVal bs

/-- Width in bits of a scalar type. -/
def bitsOf (t : Ty) : Nat := 8 * SCALAR_TYPE_SIZE t

/-- Wrap an integer into `w` unsigned bits (`ToUint32`-style). -/
def toUw (w : Nat) (v : Int) : Nat := (v % ((2 : Int) ^ w)).toNat

/-- The signed scalar types. -/
def isSignedTy : Ty → Bool
  | .int8 => true
  | .int16 => true
  | .int32 => true
  | _ => false

/-- The bytes a DataView setter stores for value `v` of scalar type `t`
(little-endian; integer setters wrap modulo the width; float setters store
the bit pattern, which is how float values are represented here). -/
def storeScalar (t : Ty) (v : Int) : List Nat :=
  leBytes (SCALAR_TYPE_SIZE t) (toUw (bitsOf t) v)

/-- The value a DataView getter returns from the field's bytes
(signed getters reinterpret the top bit; unsigned and float getters return
the unsigned value / the bit pattern). -/
def loadScalar (t : Ty) (bs : List Nat) : Int :=
  let n := leVal bs
  if isSignedTy t = true ∧ 2 ^ (bitsOf t - 1) ≤ n then (n : Int) - 2 ^ bitsOf t
  else (n : Int)

/-- Schema-validity of a number for a scalar field: in range for the integer
types, a bit pattern of the right width for the float types. -/
def inRange (t : Ty) (v : Int) : Bool :=
  if isSignedTy t then
    decide (-((2 : Int) ^ (bitsOf t - 1)) ≤ v ∧ v < (2 : Int) ^ (bitsOf t - 1))
  else decide (0 ≤ v ∧ v < (2 : Int) ^ bitsOf t)

/-- Bulk element encoding of a typed array (`dst.set(src)`), little-endian. -/
def encodeElems (cls : Ty) (elems : List Int) : List Nat :=
  (elems.map (storeScalar cls)).join

/-- Split a byte region back into `n` typed-array elements. -/
def decodeElems (cls : Ty) : Nat → List Nat → List Int
  | 0, _ => []
  | n + 1, bs =>
      loadScalar cls (bs.take (SCALAR_TYPE_SIZE cls)) ::
        decodeElems cls n (bs.drop (SCALAR_TYPE_SIZE cls))

/-- UTF-8 encoding of one Unicode scalar value (`TextEncoder`). -/
def encodeChar (c : Nat) : List Nat :=
  if c < 128 then [c]
  else if c < 2048 then [192 + c / 64, 128 + c % 64]
  else if c < 65536 then [224 + c / 4096, 128 + c / 64 % 64, 128 + c % 64]
  else [240 + c / 262144, 128 + c / 4096 % 64, 128 + c / 64 % 64, 128 + c % 64]

/-- UTF-8 encoding of a string. -/
def utf8Encode (s : List Nat) : List Nat := (s.map encodeChar).join

/-- Decode one UTF-8 character from the front of a byte list; on malformed
input yields U+FFFD like `TextDecoder` in replacement mode. -/
def decodeOne : List Nat → Option (Nat × List Nat)
  | [] => none
  | b :: bs =>
      if b < 128 then some (b, bs)
      else if b < 192 then some (65533, bs)
      else if b < 224 then
        match bs with
        | b1 :: rest => some ((b - 192) * 64 + (b1 - 128), rest)
        | [] => some (65533, [])
      else if b < 240 then
        match bs with
        | b1 :: b2 :: rest =>
            some ((b - 224) * 4096 + (b1 - 128) * 64 + (b2 - 128), rest)
        | _ => some (65533, [])
      else
        match bs with
        | b1 :: b2 :: b3 :: rest =>
            some ((b - 240) * 262144 + (b1 - 128) * 4096 + (b2 - 128) * 64 +
              (b3 - 128), rest)
        | _ => some (65533, [])

/-- Fuelled UTF-8 decoding loop (each step consumes at least one byte, so
`fuel = length` suffices). -/
def utf8DecodeFuel : Nat → List Nat → List Nat
  | 0, _ => []
  | _ + 1, [] => []
  | f + 1, b :: bs =>
      match decodeOne (b :: bs) with
      | none => []
      | some (c, rest) => c :: utf8DecodeFuel f rest

/-- UTF-8 decoding of a whole byte list (`TextDecoder.decode`). -/
def utf8Decode (bs : List Nat) : List Nat := utf8DecodeFuel bs.length bs

/-- The prefix of a byte region up to (excluding) its first NUL byte —
`bytes.indexOf(0)` followed by `subarray` in `readSnapshot`. -/
def takeUntilZero : List Nat → List Nat
  | [] => []
  | b :: bs => if b = 0 then [] else b :: takeUntilZero bs

/-- A Unicode scalar value as `TextEncoder` accepts it. -/
def validChar (c : Nat) : Bool :=
  decide (c < 1114112) && decide (c < 55296 ∨ 57344 ≤ c)

/-- `layout.fields[key]`. -/
def lookupField (key : String) : LayoutFields → Option FieldLayout
  | .nil => none
  | .cons name f rest => if key = name then some f else lookupField key rest

/-! Result of `writeFields`: the buffer after the call together with the
raised error, if any (in JS the writes performed before a throw persist in
the shared buffer). -/
structure WriteRes where
  buf : Buf
  err : Option SchemaErr

/-! `writeFields`, one field: validation precedes every store, exactly as in
the source (`scalar`: number check; `array`: class check, then length check,
then one bulk copy; `utf8`: string check, encode, byte-budget check, zero-fill
plus copy; `nested`: object check, recurse). -/
mutual
def writeField (key : String) (fl : FieldLayout) (v : Value) (buf : Buf)
    (base : Nat) : WriteRes :=
  match fl with
  | .scalarL t off =>
      match v with
      | .num x => ⟨writeBytes buf (base + off) (storeScalar t x), none⟩
      | _ => ⟨buf, some (.expectedNumber key)⟩
  | .arrayL t off count =>
      match v with
      | .arrV cls elems =>
          if cls ≠ viewClass t then ⟨buf, some (.wrongArrayClass key t)⟩
          else if elems.length ≠ count * ARRAY_VIEW_LENGTH_MULTIPLIER t then
            ⟨buf, some (.lengthMismatch key (count * ARRAY_VIEW_LENGTH_MULTIPLIER t)
              elems.length)⟩
          else ⟨writeBytes buf (base + off) (encodeElems (viewClass t) elems), none⟩
      | _ => ⟨buf, some (.wrongArrayClass key t)⟩
  | .utf8L off cap =>
      match v with
      | .strV s =>
          let encoded := utf8Encode s
          if cap < encoded.length then ⟨buf, some (.utf8TooLong key cap encoded.length)⟩
          else ⟨writeBytes buf (base + off)
            (encoded ++ List.replicate (cap - encoded.length) 0), none⟩
      | _ => ⟨buf, some (.expectedString key)⟩
  | .nestedL off fields _ =>
      match v with
      | .nestedV vs => writeValues fields vs buf (base + off)
      | _ => ⟨buf, some (.expectedObject key)⟩
def writeValues (fields : LayoutFields) (vs : Values) (buf : Buf) (base : Nat) :
    WriteRes :=
  match vs with
  | .nil => ⟨buf, none⟩
  | .cons key v rest =>
      match lookupField key fields with
      | none => ⟨buf, some (.unknownField key)⟩
      | some fl =>
          let r := writeField key fl v buf base
          match r.err with
          | some e => ⟨r.buf, some e⟩
          | none => writeValues fields rest r.buf base
end

/-! `readSnapshot`, one field. Scalars through the DataView getter; array
fields as the typed-array view over the field's bytes; UTF-8 fields decoded
up to the first NUL or the full capacity; nested fields recurse. -/
mutual
def readField (fl : FieldLayout) (buf : Buf) (base : Nat) : Value :=
  match fl with
  | .scalarL t off => .num (loadScalar t (readBytes buf (base + off) (SCALAR_TYPE_SIZE t)))
  | .arrayL t off count =>
      .arrV (viewClass t)
        (decodeElems (viewClass t) (count * ARRAY_VIEW_LENGTH_MULTIPLIER t)
          (readBytes buf (base + off)
            (count * ARRAY_VIEW_LENGTH_MULTIPLIER t * SCALAR_TYPE_SIZE (viewClass t))))
  | .utf8L off cap => .strV (utf8Decode (takeUntilZero (readBytes buf (base + off) cap)))
  | .nestedL off fields _ => .nestedV (readValues fields buf (base + off))
def readValues (fields : LayoutFields) (buf : Buf) (base : Nat) : Values :=
  match fields with
  | .nil => .nil
  | .cons key fl rest => .cons key (readField fl buf base) (readValues rest buf base)
end

/-- Concatenation of values lists. -/
def appendValues : Values → Values → Values
  | .nil, ws => ws
  | .cons k v rest, ws => .cons k v (appendValues rest ws)

/-- The non-nested field kinds (a single validate-then-store step). -/
def isLeaf : FieldLayout → Bool
  | .nestedL _ _ _ => false
  | _ => true

/-- The all-zero buffer (a freshly allocated `SharedArrayBuffer`). -/
def zeroBuf : Buf := fun _ => 0

/-!  Schema-validity of a full value for a layout: scalar numbers in range
(float fields read as bit patterns), typed arrays of the backing class with
exactly the declared view length and in-range elements, strings of Unicode
scalar values without NUL whose UTF-8 encoding fits the capacity, and nested
records that are full and valid field by field, in declaration order. -/
mutual
def validFor : FieldLayout → Value → Bool
  | .scalarL t _, .num x => isScalarType t && inRange t x
  | .arrayL t _ count, .arrV cls elems =>
      (cls == viewClass t) && (elems.length == count * ARRAY_VIEW_LENGTH_MULTIPLIER t)
        && elems.all (fun x => inRange (viewClass t) x)
  | .utf8L _ cap, .strV s =>
      s.all (fun c => validChar c && decide (c ≠ 0)) &&
        decide ((utf8Encode s).length ≤ cap)
  | .nestedL _ fields _, .nestedV vs => validValsFor fields vs
  | _, _ => false
def validValsFor : LayoutFields → Values → Bool
  | .nil, .nil => true
  | .cons name fl frest, .cons k v vrest =>
      (k == name) && validFor fl v && validValsFor frest vrest
  | .cons _ _ _, .nil => false
  | .nil, .cons _ _ _ => false
end

/-- First byte offset of a field within its record. -/
def fieldStartOff : FieldLayout → Nat
  | .scalarL _ off => off
  | .arrayL _ off _ => off
  | .utf8L off _ => off
  | .nestedL off _ _ => off

/-- One past the last byte offset of a field within its record. -/
def fieldEndOff : FieldLayout → Nat
  | .scalarL t off => off + SCALAR_TYPE_SIZE t
  | .arrayL t off count => off + ARRAY_ELEMENT_SIZE t * count
  | .utf8L off cap => off + cap
  | .nestedL off _ bl => off + bl

/-! Well-placed layouts, as `computeLayout` produces them: fields occupy
ordered, non-overlapping spans between the running offset and the final
offset, scalar/array fields carry legal types, and nested layouts are
well-placed within their own `[0, byteLength)` window. -/
mutual
def wfField : FieldLayout → Prop
  | .scalarL t _ => isScalarType t = true
  | .arrayL t _ _ => isArrayType t = true
  | .utf8L _ _ => True
  | .nestedL _ fields bl => wfFields fields 0 bl
def wfFields : LayoutFields → Nat → Nat → Prop
  | .nil, o, e => o ≤ e
  | .cons _ f rest, o, e =>
      o ≤ fieldStartOff f ∧ wfField f ∧ wfFields rest (fieldEndOff f) e
end

/-- Two buffers agree on the byte range `[lo, hi)`. -/
def agreeOn (b1 b2 : Buf) (lo hi : Nat) : Prop :=
  ∀ i, lo ≤ i → i < hi → b1 i = b2 i

/-- The field names of a layout, in order. -/
def namesOf : LayoutFields → List String
  | .nil => []
  | .cons name _ rest => name :: namesOf rest

/-- Concatenation of layout field lists. -/
def appendLF : LayoutFields → LayoutFields → LayoutFields
  | .nil, gs => gs
  | .cons name f rest, gs => .cons name f (appendLF rest gs)

/-- Distinct field names at one level. JavaScript object literals cannot
repeat a key, so every layout obtained from a real schema object satisfies
this at every nesting level. -/
def nodupNames (fs : LayoutFields) : Bool := decide ((namesOf fs).Nodup)

/-! Distinct field names at every nesting level. -/
mutual
def wellNamedF : FieldLayout → Bool
  | .nestedL _ fields _ => nodupNames fields && wellNamedLF fields
  | _ => true
def wellNamedLF : LayoutFields → Bool
  | .nil => true
  | .cons _ f rest => wellNamedF f && wellNamedLF rest
end

/-! The field's span of `buf` holds exactly the bytes `writeFields` stores
for the value (nested fields recursively, leaving their padding holes
unconstrained). -/
mutual
def holdsVal : FieldLayout → Value → Buf → Nat → Prop
  | .scalarL t off, .num x, buf, b =>
      readBytes buf (b + off) (SCALAR_TYPE_SIZE t) = storeScalar t x
  | .arrayL t off count, .arrV _ elems, buf, b =>
      readBytes buf (b + off)
          (count * ARRAY_VIEW_LENGTH_MULTIPLIER t * SCALAR_TYPE_SIZE (viewClass t)) =
        encodeElems (viewClass t) elems
  | .utf8L off cap, .strV s, buf, b =>
      readBytes buf (b + off) cap =
        utf8Encode s ++ List.replicate (cap - (utf8Encode s).length) 0
  | .nestedL off fields _, .nestedV vs, buf, b => holdsVals fields vs buf (b + off)
  | _, _, _, _ => False
def holdsVals : LayoutFields → Values → Buf → Nat → Prop
  | .nil, .nil, _, _ => True
  | .cons _ fl frest, .cons _ v vrest, buf, b =>
      holdsVal fl v buf b ∧ holdsVals frest vrest buf b
  | .nil, .cons _ _ _, _, _ => False
  | .cons _ _ _, .nil, _, _ => False
end

end Schema

namespace Runtime

/-! ## `SharedRuntime.createSharedObject` from `src/shared-runtime.ts` -/

/-- The argument of `createSharedObject`: either a `SharedObjectConfig`
(an object with a numeric `byteLength`) or a schema. -/
inductive ConfigOrSchema where
  | config (byteLength : Int)
  | schema (s : Schema.SchemaDef)

/-- Field lookup in a schema definition. -/
def lookupDef (key : String) : Schema.SchemaDef → Option Schema.FieldDef
  | .nil => none
  | .cons name f rest => if key = name then some f else lookupDef key rest

/-- The `isConfig` test: `"byteLength" in x && typeof x.byteLength ===
"number"`. For a schema object the property is a number exactly when the
schema declares a scalar field named `byteLength` (its value then being the
`Type` enum member's number). -/
def configByteLength : ConfigOrSchema → Option Int
  | .config bl => some bl
  | .schema s =>
      match lookupDef ("byteLength") s with
      | some (.scalar t) => some t.enumVal
      | _ => none

/-- The tail of `createSharedObject`: `SharedObject.create` (which may throw),
then registration of the object under its id. The broadcast to attached
workers carries no registry state and is omitted. -/
def finishCreate (reg : List String) (id : String) (bl : Int) :
    Except JsError Int × List String :=
  match SO.create id bl with
  | .error e => (.error e, reg)
  | .ok _ => (.ok bl, id :: reg)

/-- `createSharedObject`: duplicate-id check, `isConfig` dispatch (computing
the layout's `byteLength` on the schema path), then create-and-register. -/
def createSharedObject (reg : List String) (id : String) (inp : ConfigOrSchema) :
    Except JsError Int × List String :=
  if id ∈ reg then (.error (.duplicateObject id), reg)
  else
    match configByteLength inp with
    | some bl => finishCreate reg id bl
    | none =>
        match inp with
        | .config bl => finishCreate reg id bl
        | .schema s =>
            match Schema.computeLayout s with
            | .error _ => (.error (.schemaViolation 0), reg)
            | .ok (_, bl) => finishCreate reg id (bl : Int)

end Runtime

/-- The schema of scenario S3:
`{flag: u8, label: [utf8, 10], vector: [f32, 3], nested: {count: u16, energy: f64}}`. -/
def exampleSchema : Schema.SchemaDef :=
  .cons ("flag") (.scalar .uint8)
    (.cons ("label") (.arr .utf8 10)
      (.cons ("vector") (.arr .float32 3)
        (.cons ("nested")
          (.nested (.cons ("count") (.scalar .uint16)
            (.cons ("energy") (.scalar .float64) .nil)))
          .nil)))

/-- A four-field schema exercising every kind: a signed scalar, a UTF-8
string field, a byte array and a nested record. -/
def rtSchema : Schema.SchemaDef :=
  .cons ("a") (.scalar .int32)
    (.cons ("s") (.arr .utf8 3)
      (.cons ("r") (.arr .uint8 2)
        (.cons ("n") (.nested (.cons ("b") (.scalar .uint16) .nil)) .nil)))

/-- The layout `computeLayout` derives from `rtSchema`. -/
def rtLayout : Schema.LayoutFields :=
  .cons ("a") (.scalarL .int32 0)
    (.cons ("s") (.utf8L 4 3)
      (.cons ("r") (.arrayL .uint8 7 2)
        (.cons ("n")
          (.nestedL 10 (.cons ("b") (.scalarL .uint16 0) .nil) 2) .nil)))

/-- A schema-valid full value for `rtSchema`: `a = -5`, `s = "ä"` (a
two-byte character in a three-byte field), `r = Uint8Array [1, 255]`,
`n.b = 7`. -/
def rtValues : Schema.Values :=
  .cons ("a") (.num (-5))
    (.cons ("s") (.strV [228])
      (.cons ("r") (.arrV .uint8 [1, 255])
        (.cons ("n") (.nestedV (.cons ("b") (.num 7) .nil)) .nil)))

/-- A write callback that performs a nested `requestWrite` on the same object
from the same thread, observes its outcome, and returns normally: an error
from the nested call yields `ok 0`; any other nested outcome is mapped to a
distinct result so that the theorem below pins down which one occurred. -/
def nestedCb (id : String) (tid : Int) (inner : SO.Cb) : SO.Cb :=
  fun st =>
    match SO.requestWrite id tid st inner with
    | .err _ st' => (.ok 0, st')
    | .ok r st' => (.ok (r + 1), st')
    | .blocked st' => (.err (.cbError 0), st')

/-! ## 32-bit arithmetic lemmas -/

theorem wrap32_lb (z : Int) : -2147483648 ≤ wrap32 z := by
  have h := Int.emod_nonneg (z + 2147483648) (by decide : (4294967296 : Int) ≠ 0)
  unfold wrap32; omega

theorem wrap32_ub (z : Int) : wrap32 z < 2147483648 := by
  have h := Int.emod_lt_of_pos (z + 2147483648) (by decide : (0 : Int) < 4294967296)
  unfold wrap32; omega

theorem toU32_wrap32 (z : Int) : toU32 (wrap32 z) = toU32 z := by
  unfold toU32 wrap32
  omega

theorem toU32_lt (z : Int) : toU32 z < 4294967296 := by
  unfold toU32
  omega

theorem toU32_ofNat (n : Nat) (h : n < 4294967296) : toU32 (n : Int) = n := by
  unfold toU32
  omega

theorem toU32_add_one (z : Int) : toU32 (z + 1) = (toU32 z + 1) % 4294967296 := by
  unfold toU32
  omega

namespace SO

theorem writeUnlocked_ok (st : Ctrl) (cb : Cb) (r : Nat) (st1 : Ctrl)
    (hc : cb st = (.ok r, st1)) :
    writeUnlocked st cb = .ok r { st1 with
      publishedSlot := ((toU32 (st.seq + 1) % slotCount : Nat) : Int)
      seq := wrap32 ((toU32 (st.seq + 1) : Nat) : Int) } := by
  unfold writeUnlocked
  rw [hc]

theorem writeUnlocked_err (st : Ctrl) (cb : Cb) (e : JsError) (st1 : Ctrl)
    (hc : cb st = (.err e, st1)) :
    writeUnlocked st cb = .err e st1 := by
  unfold writeUnlocked
  rw [hc]

theorem finishWrite_ok_owner (tid : Int) (r : Nat) (st : Ctrl)
    (h : st.writeOwnerThreadId = tid) :
    finishWrite tid (.ok r st) = .ok r { st with
      writeOwnerThreadId := NO_OWNER_THREAD_ID
      servingTicket := wrap32 (st.servingTicket + 1) } := by
  unfold finishWrite releaseWriteLock
  simp [h]

theorem finishWrite_ok_notOwner (tid : Int) (r : Nat) (st : Ctrl)
    (h : st.writeOwnerThreadId ≠ tid) :
    finishWrite tid (.ok r st) = .err .releaseNotOwner st := by
  unfold finishWrite releaseWriteLock
  simp [h]

theorem finishWrite_err_owner (tid : Int) (e : JsError) (st : Ctrl)
    (h : st.writeOwnerThreadId = tid) :
    finishWrite tid (.err e st) = .err e { st with
      writeOwnerThreadId := NO_OWNER_THREAD_ID
      servingTicket := wrap32 (st.servingTicket + 1) } := by
  unfold finishWrite releaseWriteLock
  simp [h]

theorem finishWrite_err_notOwner (tid : Int) (e : JsError) (st : Ctrl)
    (h : st.writeOwnerThreadId ≠ tid) :
    finishWrite tid (.err e st) = .err .releaseNotOwner st := by
  unfold finishWrite releaseWriteLock
  simp [h]

/-- A successful `requestWrite` leaves `seq` at the 32-bit successor of the
entry value of `seq`, `published_slot` at that successor modulo three, and the
owner word clear — for every callback, since the publish stores run after the
callback and the release runs last. -/
theorem requestWrite_ok_spec (id : String) (tid : Int) (st : Ctrl) (cb : Cb)
    (r : Nat) (st' : Ctrl) (h : requestWrite id tid st cb = .ok r st') :
    st'.seq = wrap32 ((toU32 (st.seq + 1) : Nat) : Int) ∧
    st'.publishedSlot = ((toU32 (st.seq + 1) % 3 : Nat) : Int) ∧
    st'.writeOwnerThreadId = NO_OWNER_THREAD_ID := by
  unfold requestWrite at h
  split at h
  · exact absurd h (by simp)
  · dsimp only at h
    split at h
    · exact absurd h (by simp)
    · rcases hc : cb ⟨st.publishedSlot, st.seq, wrap32 (st.nextTicket + 1),
        st.servingTicket, tid⟩ with ⟨res, st3⟩
      cases res with
      | ok r1 =>
          rw [writeUnlocked_ok _ _ _ _ hc] at h
          by_cases ho : st3.writeOwnerThreadId = tid
          · rw [finishWrite_ok_owner _ _ _ (by simpa using ho)] at h
            injection h with h1 h2
            subst h2
            exact ⟨rfl, by simp [slotCount], rfl⟩
          · rw [finishWrite_ok_notOwner _ _ _ (by simpa using ho)] at h
            exact absurd h (by simp)
      | err e1 =>
          rw [writeUnlocked_err _ _ _ _ hc] at h
          by_cases ho : st3.writeOwnerThreadId = tid
          · rw [finishWrite_err_owner _ _ _ ho] at h
            exact absurd h (by simp)
          · rw [finishWrite_err_notOwner _ _ _ ho] at h
            exact absurd h (by simp)

/-- A failed `requestWrite` with a control-preserving callback leaves `seq`
and `published_slot` unchanged: no publish occurs. -/
theorem requestWrite_err_spec (id : String) (tid : Int) (st : Ctrl) (cb : Cb)
    (e : JsError) (st' : Ctrl) (hcp : ControlPreserving cb)
    (h : requestWrite id tid st cb = .err e st') :
    st'.seq = st.seq ∧ st'.publishedSlot = st.publishedSlot := by
  unfold requestWrite at h
  split at h
  · injection h with h1 h2
    subst h2; exact ⟨rfl, rfl⟩
  · dsimp only at h
    split at h
    · exact absurd h (by simp)
    · rcases hc : cb ⟨st.publishedSlot, st.seq, wrap32 (st.nextTicket + 1),
        st.servingTicket, tid⟩ with ⟨res, st3⟩
      have hst3 : st3 = ⟨st.publishedSlot, st.seq, wrap32 (st.nextTicket + 1),
          st.servingTicket, tid⟩ := by
        have h3 := hcp ⟨st.publishedSlot, st.seq, wrap32 (st.nextTicket + 1),
          st.servingTicket, tid⟩
        rw [hc] at h3
        exact h3
      cases res with
      | ok r1 =>
          rw [writeUnlocked_ok _ _ _ _ hc] at h
          rw [finishWrite_ok_owner _ _ _ (by simp [hst3])] at h
          exact absurd h (by simp)
      | err e1 =>
          rw [writeUnlocked_err _ _ _ _ hc] at h
          rw [finishWrite_err_owner _ _ _ (by simp [hst3])] at h
          injection h with h1 h2
          subst h2
          simp [hst3]

/-- A blocked `requestWrite` only fetch-added the ticket word: `seq` and
`published_slot` are unchanged. -/
theorem requestWrite_blocked_spec (id : String) (tid : Int) (st : Ctrl) (cb : Cb)
    (st' : Ctrl) (h : requestWrite id tid st cb = .blocked st') :
    st'.seq = st.seq ∧ st'.publishedSlot = st.publishedSlot := by
  unfold requestWrite at h
  split at h
  · exact absurd h (by simp)
  · dsimp only at h
    split at h
    · injection h with h1
      subst h1; exact ⟨rfl, rfl⟩
    · rcases hc : cb ⟨st.publishedSlot, st.seq, wrap32 (st.nextTicket + 1),
        st.servingTicket, tid⟩ with ⟨res, st3⟩
      cases res with
      | ok r1 =>
          rw [writeUnlocked_ok _ _ _ _ hc] at h
          by_cases ho : st3.writeOwnerThreadId = tid
          · rw [finishWrite_ok_owner _ _ _ (by simpa using ho)] at h
            exact absurd h (by simp)
          · rw [finishWrite_ok_notOwner _ _ _ (by simpa using ho)] at h
            exact absurd h (by simp)
      | err e1 =>
          rw [writeUnlocked_err _ _ _ _ hc] at h
          by_cases ho : st3.writeOwnerThreadId = tid
          · rw [finishWrite_err_owner _ _ _ ho] at h
            exact absurd h (by simp)
          · rw [finishWrite_err_notOwner _ _ _ ho] at h
            exact absurd h (by simp)

end SO

namespace V7

/-- On a poisoned object every `requestWrite` fails immediately with the
fatal-state error, leaving the control words untouched. -/
theorem requestWrite_poisoned (id : String) (tid : Int) (st : Ctrl) (cb : Cb)
    (h : st.fatalWriterDied ≠ 0) :
    requestWrite id tid st cb = .err (.poisoned id) st := by
  simp [requestWrite, h]

/-- No operation ever clears the fatal word: a step from a poisoned state
leads to a poisoned state. -/
theorem step_preserves_fatal (st st' : Ctrl) (h : st.fatalWriterDied ≠ 0)
    (hs : Step st st') : st'.fatalWriterDied ≠ 0 := by
  cases hs with
  | wrOk id tid cb r st st' hcp heq =>
      rw [requestWrite_poisoned id tid st cb h] at heq
      exact absurd heq (by simp)
  | wrErr id tid cb e st st' hcp heq =>
      rw [requestWrite_poisoned id tid st cb h] at heq
      cases heq
      exact h
  | wrBlocked id tid cb st st' hcp heq =>
      rw [requestWrite_poisoned id tid st cb h] at heq
      exact absurd heq (by simp)
  | died t st =>
      unfold markWriterThreadDied
      by_cases ho : st.writeOwnerThreadId ≠ t
      · simpa [ho] using h
      · simp [ho]

/-- Poison is preserved along any sequence of steps. -/
theorem reachable_preserves_fatal (st st' : Ctrl) (h : st.fatalWriterDied ≠ 0)
    (hr : Reachable st st') : st'.fatalWriterDied ≠ 0 := by
  induction hr with
  | refl => exact h
  | tail a b hab hbc ih => exact step_preserves_fatal _ _ ih hbc

end V7

/-- **C1.** `seq` is initialized to 0 at creation (and `published_slot` to
`-1`); every successful `requestWrite` leaves `seq` at its 32-bit successor
and `published_slot = seq mod 3`; a failed `requestWrite` leaves both words
unchanged; and in every reachable control state `published_slot` is either
`-1` or lies in `[0, 3)` and equals `seq mod 3` (with `seq` read as
unsigned). -/
theorem seq_published_slot_protocol :
    (SO.createCtrl.seq = 0 ∧ SO.createCtrl.publishedSlot = -1) ∧
    (∀ (id : String) (tid : Int) (st : SO.Ctrl) (cb : SO.Cb) (r : Nat) (st' : SO.Ctrl),
      SO.requestWrite id tid st cb = .ok r st' →
      toU32 st'.seq = (toU32 st.seq + 1) % 4294967296 ∧
      st'.publishedSlot = ((toU32 st'.seq % 3 : Nat) : Int)) ∧
    (∀ (id : String) (tid : Int) (st : SO.Ctrl) (cb : SO.Cb) (e : JsError) (st' : SO.Ctrl),
      SO.ControlPreserving cb → SO.requestWrite id tid st cb = .err e st' →
      st'.seq = st.seq ∧ st'.publishedSlot = st.publishedSlot) ∧
    (∀ (st' : SO.Ctrl), SO.Reachable SO.createCtrl st' →
      st'.publishedSlot = -1 ∨
      (0 ≤ st'.publishedSlot ∧ st'.publishedSlot < 3 ∧
       st'.publishedSlot = ((toU32 st'.seq % 3 : Nat) : Int))) := by
  have hok : ∀ (id : String) (tid : Int) (st : SO.Ctrl) (cb : SO.Cb) (r : Nat) (st' : SO.Ctrl),
      SO.requestWrite id tid st cb = .ok r st' →
      toU32 st'.seq = (toU32 st.seq + 1) % 4294967296 ∧
      st'.publishedSlot = ((toU32 st'.seq % 3 : Nat) : Int) := by
    intro id tid st cb r st' h
    obtain ⟨h1, h2, h3⟩ := SO.requestWrite_ok_spec id tid st cb r st' h
    have hu : toU32 st'.seq = toU32 (st.seq + 1) := by
      rw [h1, toU32_wrap32, toU32_ofNat _ (toU32_lt _)]
    constructor
    · rw [hu, toU32_add_one]
    · rw [h2, hu]
  refine ⟨⟨rfl, rfl⟩, hok, ?_, ?_⟩
  · intro id tid st cb e st' hcp h
    exact SO.requestWrite_err_spec id tid st cb e st' hcp h
  · intro st' hr
    induction hr with
    | refl => left; rfl
    | tail a b hab hstep ih =>
        rcases hstep with ⟨id, tid, cb, r, s1, s2, hcp, heq⟩ |
          ⟨id, tid, cb, e, s1, s2, hcp, heq⟩ | ⟨id, tid, cb, s1, s2, hcp, heq⟩
        · right
          obtain ⟨h1, h2⟩ := hok _ _ _ _ _ _ heq
          refine ⟨by rw [h2]; exact Int.ofNat_nonneg _,
            by rw [h2]; exact_mod_cast Nat.mod_lt _ (by decide), h2⟩
        · obtain ⟨h1, h2⟩ := SO.requestWrite_err_spec _ _ _ _ _ _ hcp heq
          rw [h1, h2]; exact ih
        · obtain ⟨h1, h2⟩ := SO.requestWrite_blocked_spec _ _ _ _ _ heq
          rw [h1, h2]; exact ih

/-- Witness for C1: a concrete first write on a fresh object publishes
`seq = 1` into slot `1`. -/
theorem seq_published_slot_protocol_witness :
    SO.requestWrite ("c") 7 SO.createCtrl (fun s => (.ok 0, s)) =
      .ok 0 ⟨1, 1, 1, 1, -1⟩ ∧
    toU32 ((1 : Int)) = (toU32 SO.createCtrl.seq + 1) % 4294967296 ∧
    ((1 : Int)) = ((toU32 ((1 : Int)) % 3 : Nat) : Int) := by
  have h := seq_published_slot_protocol.2.1 ("c") 7 SO.createCtrl
    (fun s => (.ok 0, s)) 0 ⟨1, 1, 1, 1, -1⟩ (by decide)
  exact ⟨by decide, h.1, h.2⟩

/-- **C2.** In the seven-word variant, after `markWriterThreadDied t` with
`t` equal to the current owner thread, the fatal word is set and can never
return to zero along any sequence of operations, and every subsequent
`requestWrite` on the object fails with the `Poisoned` error, leaving the
state untouched. -/
theorem poisoning_is_sticky (st : V7.Ctrl) (t : Int)
    (howner : st.writeOwnerThreadId = t) :
    (V7.markWriterThreadDied t st).1 = true ∧
    (V7.markWriterThreadDied t st).2.fatalWriterDied = 1 ∧
    ∀ st'' : V7.Ctrl, V7.Reachable (V7.markWriterThreadDied t st).2 st'' →
      st''.fatalWriterDied ≠ 0 ∧
      ∀ (id : String) (tid : Int) (cb : V7.Cb),
        V7.requestWrite id tid st'' cb = .err (.poisoned id) st'' := by
  have hmark : (V7.markWriterThreadDied t st).2.fatalWriterDied = 1 := by
    unfold V7.markWriterThreadDied
    simp [howner]
  refine ⟨?_, hmark, ?_⟩
  · unfold V7.markWriterThreadDied
    simp [howner]
  · intro st'' hr
    have hf : st''.fatalWriterDied ≠ 0 :=
      V7.reachable_preserves_fatal _ _ (by rw [hmark]; decide) hr
    exact ⟨hf, fun id tid cb => V7.requestWrite_poisoned id tid st'' cb hf⟩

/-- Witness for C2: concretely, marking thread 5 dead while it owns the lock
poisons the object and a subsequent write by thread 9 fails with `Poisoned`. -/
theorem poisoning_is_sticky_witness :
    ((⟨-1, 0, 1, 0, 5, 1, 0⟩ : V7.Ctrl).writeOwnerThreadId = 5) ∧
    V7.requestWrite ("obj") 9 (V7.markWriterThreadDied 5 ⟨-1, 0, 1, 0, 5, 1, 0⟩).2
      (fun s => (.ok 0, s)) =
      .err (.poisoned ("obj")) (V7.markWriterThreadDied 5 ⟨-1, 0, 1, 0, 5, 1, 0⟩).2 := by
  refine ⟨rfl, ?_⟩
  have h := poisoning_is_sticky ⟨-1, 0, 1, 0, 5, 1, 0⟩ 5 rfl
  exact (h.2.2 _ (V7.Reachable.refl _)).2 ("obj") 9 (fun s => (.ok 0, s))

/-- **C4.** When the callback raises, `requestWrite` propagates that very
error, performs no publish (`seq` and `published_slot` unchanged), clears the
owner word and advances `serving_ticket`; a subsequent `requestWrite` (by any
real thread id) then acquires the lock and publishes. -/
theorem callback_error_propagates (id : String) (tid tid2 : Int) (st : SO.Ctrl)
    (e : JsError) (r : Nat)
    (hown : st.writeOwnerThreadId ≠ tid)
    (hturn : st.servingTicket = st.nextTicket)
    (htid2 : tid2 ≠ SO.NO_OWNER_THREAD_ID) :
    ∃ st' st'' : SO.Ctrl,
      SO.requestWrite id tid st (fun s => (.err e, s)) = .err e st' ∧
      st'.seq = st.seq ∧
      st'.publishedSlot = st.publishedSlot ∧
      st'.writeOwnerThreadId = SO.NO_OWNER_THREAD_ID ∧
      st'.servingTicket = wrap32 (st.servingTicket + 1) ∧
      st'.nextTicket = wrap32 (st.nextTicket + 1) ∧
      SO.requestWrite id tid2 st' (fun s => (.ok r, s)) = .ok r st'' ∧
      toU32 st''.seq = (toU32 st.seq + 1) % 4294967296 ∧
      st''.publishedSlot = ((toU32 st''.seq % 3 : Nat) : Int) := by
  have hnoto : SO.NO_OWNER_THREAD_ID ≠ tid2 := Ne.symm htid2
  have e1 : SO.requestWrite id tid st (fun s => (.err e, s)) = .err e
      ⟨st.publishedSlot, st.seq, wrap32 (st.nextTicket + 1),
        wrap32 (st.servingTicket + 1), SO.NO_OWNER_THREAD_ID⟩ := by
    simp [SO.requestWrite, SO.writeUnlocked, SO.finishWrite, SO.releaseWriteLock,
      hown, hturn]
  have e2 : SO.requestWrite id tid2
      ⟨st.publishedSlot, st.seq, wrap32 (st.nextTicket + 1),
        wrap32 (st.servingTicket + 1), SO.NO_OWNER_THREAD_ID⟩
      (fun s => (.ok r, s)) = .ok r
      ⟨((toU32 (st.seq + 1) % SO.slotCount : Nat) : Int),
        wrap32 ((toU32 (st.seq + 1) : Nat) : Int),
        wrap32 (wrap32 (st.nextTicket + 1) + 1),
        wrap32 (wrap32 (st.servingTicket + 1) + 1), SO.NO_OWNER_THREAD_ID⟩ := by
    simp [SO.requestWrite, SO.writeUnlocked, SO.finishWrite, SO.releaseWriteLock,
      hnoto, hturn]
  refine ⟨⟨st.publishedSlot, st.seq, wrap32 (st.nextTicket + 1),
      wrap32 (st.servingTicket + 1), SO.NO_OWNER_THREAD_ID⟩,
    ⟨((toU32 (st.seq + 1) % SO.slotCount : Nat) : Int),
      wrap32 ((toU32 (st.seq + 1) : Nat) : Int),
      wrap32 (wrap32 (st.nextTicket + 1) + 1),
      wrap32 (wrap32 (st.servingTicket + 1) + 1), SO.NO_OWNER_THREAD_ID⟩,
    e1, rfl, rfl, rfl, rfl, rfl, e2, ?_, ?_⟩
  · dsimp only
    rw [toU32_wrap32, toU32_ofNat _ (toU32_lt _), toU32_add_one]
  · dsimp only
    rw [toU32_wrap32, toU32_ofNat _ (toU32_lt _)]
    rfl

/-- Witness for C4: on a fresh object, a write whose callback raises leaves
`seq = 0` and `published_slot = -1` and the next write publishes `seq = 1`. -/
theorem callback_error_propagates_witness :
    SO.createCtrl.writeOwnerThreadId ≠ 7 ∧
    ∃ st' st'' : SO.Ctrl,
      SO.requestWrite ("c") 7 SO.createCtrl (fun s => (.err (.cbError 3), s)) =
        .err (.cbError 3) st' ∧
      st'.seq = SO.createCtrl.seq ∧
      st'.publishedSlot = SO.createCtrl.publishedSlot ∧
      st'.writeOwnerThreadId = SO.NO_OWNER_THREAD_ID ∧
      st'.servingTicket = wrap32 (SO.createCtrl.servingTicket + 1) ∧
      st'.nextTicket = wrap32 (SO.createCtrl.nextTicket + 1) ∧
      SO.requestWrite ("c") 7 st' (fun s => (.ok 4, s)) = .ok 4 st'' ∧
      toU32 st''.seq = (toU32 SO.createCtrl.seq + 1) % 4294967296 ∧
      st''.publishedSlot = ((toU32 st''.seq % 3 : Nat) : Int) :=
  ⟨by decide, callback_error_propagates ("c") 7 7 SO.createCtrl (.cbError 3) 4
    (by decide) rfl (by decide)⟩

/-- **C5.** During a write, the owner word equals the writing thread's id, so
a nested `requestWrite` from the callback fails with the reentrant-write
error before taking a ticket and leaves the control state untouched; the
outer write then still publishes (`seq` advanced, slot = seq mod 3, lock
released). -/
theorem reentrant_write_rejected (id : String) (tid : Int) (st : SO.Ctrl)
    (inner : SO.Cb)
    (hown : st.writeOwnerThreadId ≠ tid)
    (hturn : st.servingTicket = st.nextTicket) :
    (∀ stDuring : SO.Ctrl, stDuring.writeOwnerThreadId = tid →
       SO.requestWrite id tid stDuring inner = .err (.reentrantWrite id) stDuring) ∧
    ∃ st' : SO.Ctrl,
      SO.requestWrite id tid st (nestedCb id tid inner) = .ok 0 st' ∧
      toU32 st'.seq = (toU32 st.seq + 1) % 4294967296 ∧
      st'.publishedSlot = ((toU32 st'.seq % 3 : Nat) : Int) ∧
      st'.writeOwnerThreadId = SO.NO_OWNER_THREAD_ID := by
  have hreent : ∀ stDuring : SO.Ctrl, stDuring.writeOwnerThreadId = tid →
      SO.requestWrite id tid stDuring inner = .err (.reentrantWrite id) stDuring := by
    intro stD hD
    unfold SO.requestWrite
    rw [if_pos hD]
  refine ⟨hreent, ?_⟩
  have hcb : nestedCb id tid inner
      ⟨st.publishedSlot, st.seq, wrap32 (st.nextTicket + 1), st.servingTicket, tid⟩ =
      (.ok 0, ⟨st.publishedSlot, st.seq, wrap32 (st.nextTicket + 1), st.servingTicket, tid⟩) := by
    unfold nestedCb
    rw [hreent _ rfl]
  refine ⟨⟨((toU32 (st.seq + 1) % SO.slotCount : Nat) : Int),
    wrap32 ((toU32 (st.seq + 1) : Nat) : Int),
    wrap32 (st.nextTicket + 1),
    wrap32 (st.servingTicket + 1), SO.NO_OWNER_THREAD_ID⟩, ?_, ?_, ?_, rfl⟩
  · have hne : ¬st.servingTicket ≠ st.nextTicket := not_not_intro hturn
    simp [SO.requestWrite, SO.writeUnlocked, SO.finishWrite, SO.releaseWriteLock,
      hown, hne, hcb]
  · dsimp only
    rw [toU32_wrap32, toU32_ofNat _ (toU32_lt _), toU32_add_one]
  · dsimp only
    rw [toU32_wrap32, toU32_ofNat _ (toU32_lt _)]
    rfl

/-- Witness for C5: concretely, on a fresh object the nested write inside a
callback is rejected while the outer write publishes `seq = 1`. -/
theorem reentrant_write_rejected_witness :
    SO.requestWrite ("c") 7 ⟨-1, 0, 1, 0, 7⟩ (fun s => (.ok 0, s)) =
      .err (.reentrantWrite ("c")) ⟨-1, 0, 1, 0, 7⟩ ∧
    ∃ st' : SO.Ctrl,
      SO.requestWrite ("c") 7 SO.createCtrl (nestedCb ("c") 7 (fun s => (.ok 0, s))) =
        .ok 0 st' ∧
      toU32 st'.seq = (toU32 SO.createCtrl.seq + 1) % 4294967296 ∧
      st'.publishedSlot = ((toU32 st'.seq % 3 : Nat) : Int) ∧
      st'.writeOwnerThreadId = SO.NO_OWNER_THREAD_ID := by
  have h := reentrant_write_rejected ("c") 7 SO.createCtrl (fun s => (.ok 0, s))
    (by decide) rfl
  exact ⟨h.1 ⟨-1, 0, 1, 0, 7⟩ rfl, h.2⟩

/-- **C3 (counterexample).** The control region of the current shared object
is not made of seven words: `CTRL_WORDS` is not 7. -/
theorem control_region_not_seven_words : SO.CTRL_WORDS ≠ 7 := by decide

/-- **C3 (amended).** The control region consists of exactly five signed
32-bit words (20 bytes), index-ordered `published_slot`, `seq`,
`next_ticket`, `serving_ticket`, `write_owner_thread_id`, and `create`
initializes them to `published_slot = -1`, counters `0`, owner `-1`. -/
theorem control_region_layout :
    SO.CTRL_WORDS = 5 ∧
    SO.controlSabByteLength = 20 ∧
    SO.CTRL_PUBLISHED_SLOT = 0 ∧ SO.CTRL_SEQ = 1 ∧ SO.CTRL_NEXT_TICKET = 2 ∧
    SO.CTRL_SERVING_TICKET = 3 ∧ SO.CTRL_WRITE_OWNER_THREAD_ID = 4 ∧
    SO.createCtrl = ⟨-1, 0, 0, 0, -1⟩ := by
  refine ⟨rfl, rfl, rfl, rfl, rfl, rfl, rfl, rfl⟩

/-- **C7.** `readLatest` is a total bounded loop of at most four attempts; in
a quiescent state it returns the published snapshot (`seq` as unsigned plus
the slot index) or `none` when nothing is published yet; and whenever it
returns `none` although a slot was published throughout, all four sequence
checks failed. -/
theorem read_latest_bounded_retries :
    (∀ c : SO.ReadObs, 0 ≤ c.slot → c.seq1 = c.seq2 →
       SO.readLatest (fun _ => c) = some (toU32 c.seq1, c.slot)) ∧
    (∀ c : SO.ReadObs, c.slot < 0 → SO.readLatest (fun _ => c) = none) ∧
    (∀ env : Nat → SO.ReadObs, SO.readLatest env = none →
       (∀ i, i < 4 → 0 ≤ (env i).slot) →
       (∀ i, i < 4 → (env i).seq1 ≠ (env i).seq2)) := by
  refine ⟨?_, ?_, ?_⟩
  · intro c hs he
    unfold SO.readLatest SO.readLatestGo
    rw [if_neg (not_lt.mpr hs), if_pos he]
  · intro c hs
    unfold SO.readLatest SO.readLatestGo
    rw [if_pos hs]
  · intro env hnone hs i hi
    have step : ∀ a n, SO.readLatestGo env a (n + 1) = none → 0 ≤ (env a).slot →
        (env a).seq1 ≠ (env a).seq2 ∧ SO.readLatestGo env (a + 1) n = none := by
      intro a n h ha
      unfold SO.readLatestGo at h
      rw [if_neg (not_lt.mpr ha)] at h
      by_cases he : (env a).seq1 = (env a).seq2
      · rw [if_pos he] at h; exact absurd h (by simp)
      · rw [if_neg he] at h; exact ⟨he, h⟩
    unfold SO.readLatest at hnone
    obtain ⟨q0, h1⟩ := step 0 3 hnone (hs 0 (by decide))
    obtain ⟨q1, h2⟩ := step 1 2 h1 (hs 1 (by decide))
    obtain ⟨q2, h3⟩ := step 2 1 h2 (hs 2 (by decide))
    obtain ⟨q3, _⟩ := step 3 0 h3 (hs 3 (by decide))
    interval_cases i
    · exact q0
    · exact q1
    · exact q2
    · exact q3

namespace Schema

/-! ### Byte-level lemmas -/

theorem length_readBytes (buf : Buf) (s len : Nat) :
    (readBytes buf s len).length = len := by
  simp [readBytes]

theorem writeBytes_lt (buf : Buf) (s : Nat) (bs : List Nat) (i : Nat) (h : i < s) :
    writeBytes buf s bs i = buf i := by
  unfold writeBytes
  rw [if_neg (by omega)]

theorem writeBytes_ge (buf : Buf) (s : Nat) (bs : List Nat) (i : Nat)
    (h : s + bs.length ≤ i) : writeBytes buf s bs i = buf i := by
  unfold writeBytes
  rw [if_neg (by omega)]

theorem readBytes_writeBytes (buf : Buf) (s : Nat) (bs : List Nat) :
    readBytes (writeBytes buf s bs) s bs.length = bs := by
  apply List.ext_getElem
  · simp [readBytes]
  · intro i h1 h2
    simp only [readBytes, writeBytes, List.getElem_map, List.getElem_range]
    rw [if_pos ⟨Nat.le_add_right _ _, by simp [readBytes] at h1; omega⟩]
    have hi : i < bs.length := by simp [readBytes] at h1; omega
    rw [show s + i - s = i by omega, List.getD_eq_getElem bs 0 hi]

theorem readBytes_congr (b1 b2 : Buf) (s len : Nat)
    (h : agreeOn b1 b2 s (s + len)) : readBytes b1 s len = readBytes b2 s len := by
  unfold readBytes
  refine List.map_congr_left ?_
  intro a ha
  have : a < len := List.mem_range.mp ha
  exact h (s + a) (Nat.le_add_right _ _) (by omega)

theorem agreeOn_mono (b1 b2 : Buf) (lo hi lo' hi' : Nat) (h : agreeOn b1 b2 lo hi)
    (h1 : lo ≤ lo') (h2 : hi' ≤ hi) : agreeOn b1 b2 lo' hi' :=
  fun i hi1 hi2 => h i (by omega) (by omega)

/-! ### Little-endian scalar codec -/

theorem leBytes_length (w : Nat) : ∀ v, (leBytes w v).length = w := by
  induction w with
  | zero => intro v; rfl
  | succ w ih => intro v; simp [leBytes, ih]

theorem leVal_leBytes (w : Nat) : ∀ v, leVal (leBytes w v) = v % 256 ^ w := by
  induction w with
  | zero => intro v; simp [leBytes, leVal, Nat.mod_one]
  | succ w ih =>
      intro v
      simp only [leBytes, leVal, ih]
      rw [Nat.pow_succ, Nat.mul_comm (256 ^ w) 256, Nat.mod_mul]

theorem toUw_lt (w : Nat) (v : Int) : toUw w v < 2 ^ w := by
  unfold toUw
  have h1 := Int.emod_nonneg v (by positivity : ((2 : Int) ^ w) ≠ 0)
  have h2 := Int.emod_lt_of_pos v (by positivity : (0 : Int) < (2 : Int) ^ w)
  have h3 : ((2 : Int) ^ w) = ((2 ^ w : Nat) : Int) := by push_cast; ring
  rw [h3] at h1 h2
  omega

theorem storeScalar_length (t : Ty) (x : Int) :
    (storeScalar t x).length = SCALAR_TYPE_SIZE t := by
  unfold storeScalar
  exact leBytes_length _ _

theorem leVal_storeScalar (t : Ty) (x : Int) :
    leVal (storeScalar t x) = toUw (bitsOf t) x := by
  unfold storeScalar
  rw [leVal_leBytes]
  have h := toUw_lt (bitsOf t) x
  have h2 : (2 : Nat) ^ bitsOf t = 256 ^ SCALAR_TYPE_SIZE t := by
    unfold bitsOf
    rw [Nat.pow_mul]
  rw [h2] at h
  exact Nat.mod_eq_of_lt h

/-- Setter-then-getter round trip for every scalar type: exact on in-range
integers and on float bit patterns. -/
theorem loadScalar_storeScalar (t : Ty) (x : Int) (hs : isScalarType t = true)
    (hr : inRange t x = true) : loadScalar t (storeScalar t x) = x := by
  have hlv := leVal_storeScalar t x
  cases t <;>
    first
      | exact absurd hs (by decide)
      | (simp only [loadScalar, hlv, isSignedTy, bitsOf, SCALAR_TYPE_SIZE, toUw,
          inRange, decide_eq_true_eq] at hr ⊢
         norm_num at hr ⊢
         first
           | (split <;> omega)
           | omega)

/-! ### Typed-array element codec -/

theorem encodeElems_cons (cls : Ty) (x : Int) (xs : List Int) :
    encodeElems cls (x :: xs) = storeScalar cls x ++ encodeElems cls xs := by
  simp [encodeElems]

theorem encodeElems_length (cls : Ty) (elems : List Int) :
    (encodeElems cls elems).length = elems.length * SCALAR_TYPE_SIZE cls := by
  induction elems with
  | nil => simp [encodeElems]
  | cons x xs ih =>
      rw [encodeElems_cons]
      simp [ih, storeScalar_length]
      ring

theorem decodeElems_encodeElems (cls : Ty) (hs : isScalarType cls = true) :
    ∀ elems : List Int, (∀ x ∈ elems, inRange cls x = true) →
      decodeElems cls elems.length (encodeElems cls elems) = elems := by
  intro elems
  induction elems with
  | nil => intro _; rfl
  | cons x xs ih =>
      intro hall
      rw [encodeElems_cons]
      simp only [List.length_cons, decodeElems]
      rw [← storeScalar_length cls x, List.take_left, List.drop_left]
      rw [loadScalar_storeScalar cls x hs (hall x (by simp))]
      rw [ih (fun y hy => hall y (by simp [hy]))]

/-! ### UTF-8 codec -/

theorem encodeChar_ne_nil (c : Nat) : encodeChar c ≠ [] := by
  unfold encodeChar
  split_ifs <;> simp

theorem utf8Encode_cons (c : Nat) (s : List Nat) :
    utf8Encode (c :: s) = encodeChar c ++ utf8Encode s := by
  simp [utf8Encode]

theorem decodeOne_encodeChar (c : Nat) (rest : List Nat) (h : validChar c = true) :
    decodeOne (encodeChar c ++ rest) = some (c, rest) := by
  simp only [validChar, Bool.and_eq_true, decide_eq_true_eq] at h
  obtain ⟨h1, h2⟩ := h
  unfold encodeChar
  split_ifs with hA hB hC
  · simp only [List.cons_append, List.nil_append, decodeOne]
    rw [if_pos hA]
  · simp only [List.cons_append, List.nil_append, decodeOne]
    rw [if_neg (by omega), if_neg (by omega), if_pos (by omega)]
    refine congrArg some (Prod.ext ?_ rfl)
    simp only
    omega
  · simp only [List.cons_append, List.nil_append, decodeOne]
    rw [if_neg (by omega), if_neg (by omega), if_neg (by omega), if_pos (by omega)]
    refine congrArg some (Prod.ext ?_ rfl)
    simp only
    omega
  · simp only [List.cons_append, List.nil_append, decodeOne]
    rw [if_neg (by omega), if_neg (by omega), if_neg (by omega), if_neg (by omega)]
    refine congrArg some (Prod.ext ?_ rfl)
    simp only
    omega

theorem utf8DecodeFuel_cons (f : Nat) (b : Nat) (bs : List Nat) :
    utf8DecodeFuel (f + 1) (b :: bs) =
      match decodeOne (b :: bs) with
      | none => []
      | some (c, rest) => c :: utf8DecodeFuel f rest := rfl

theorem utf8DecodeFuel_encode :
    ∀ (s : List Nat) (f : Nat), (∀ c ∈ s, validChar c = true) →
      (utf8Encode s).length ≤ f → utf8DecodeFuel f (utf8Encode s) = s := by
  intro s
  induction s with
  | nil =>
      intro f _ _
      show utf8DecodeFuel f [] = []
      cases f <;> rfl
  | cons c s1 ih =>
      intro f hall hf
      rw [utf8Encode_cons] at hf ⊢
      rcases hec : encodeChar c with _ | ⟨hd, tl⟩
      · exact absurd hec (encodeChar_ne_nil c)
      · obtain ⟨f1, rfl⟩ : ∃ f1, f = f1 + 1 := by
          rcases f with _ | f1
          · rw [hec] at hf; simp at hf
          · exact ⟨f1, rfl⟩
        have hdec := decodeOne_encodeChar c (utf8Encode s1) (hall c (by simp))
        rw [hec] at hdec
        simp only [List.cons_append] at hdec ⊢
        rw [utf8DecodeFuel_cons, hdec]
        refine congrArg (c :: ·) ?_
        refine ih f1 (fun x hx => hall x (by simp [hx])) ?_
        rw [hec] at hf
        simp at hf
        omega

theorem utf8Decode_encode (s : List Nat) (h : ∀ c ∈ s, validChar c = true) :
    utf8Decode (utf8Encode s) = s :=
  utf8DecodeFuel_encode s _ h le_rfl

theorem encodeChar_no_zero (c : Nat) (hc : c ≠ 0) : ∀ b ∈ encodeChar c, b ≠ 0 := by
  unfold encodeChar
  split_ifs <;> intro b hb <;> simp at hb <;> omega

theorem utf8Encode_no_zero (s : List Nat) (h : ∀ c ∈ s, c ≠ 0) :
    ∀ b ∈ utf8Encode s, b ≠ 0 := by
  induction s with
  | nil => intro b hb; simp [utf8Encode] at hb
  | cons c s1 ih =>
      intro b hb
      rw [utf8Encode_cons, List.mem_append] at hb
      rcases hb with hb | hb
      · exact encodeChar_no_zero c (h c (by simp)) b hb
      · exact ih (fun x hx => h x (by simp [hx])) b hb

theorem takeUntilZero_replicate_zero (n : Nat) :
    takeUntilZero (List.replicate n 0) = [] := by
  cases n <;> simp [takeUntilZero, List.replicate]

theorem takeUntilZero_append_no_zero (l : List Nat) (z : List Nat)
    (h : ∀ b ∈ l, b ≠ 0) (hz : takeUntilZero z = []) :
    takeUntilZero (l ++ z) = l := by
  induction l with
  | nil => simpa using hz
  | cons b bs ih =>
      have hb : b ≠ 0 := h b (by simp)
      simp only [List.cons_append, takeUntilZero, if_neg hb]
      rw [show bs.append z = bs ++ z from rfl, ih (fun x hx => h x (by simp [hx]))]

/-! ### Layouts produced by `computeLayout` are well-placed -/

theorem fieldStartOff_le_fieldEndOff (f : FieldLayout) :
    fieldStartOff f ≤ fieldEndOff f := by
  cases f <;> simp [fieldStartOff, fieldEndOff]

theorem wfFields_le (fs : LayoutFields) : ∀ (lo hi : Nat), wfFields fs lo hi → lo ≤ hi := by
  match fs with
  | .nil => intro lo hi h; exact h
  | .cons k f rest =>
      intro lo hi h
      obtain ⟨h1, h2, h3⟩ := h
      have h4 := wfFields_le rest _ _ h3
      have h5 := fieldStartOff_le_fieldEndOff f
      omega

theorem le_alignTo (o a : Nat) (ha : 0 < a) : o ≤ alignTo o a := by
  unfold alignTo
  rw [Nat.mul_comm]
  have h1 := Nat.div_add_mod (o + a - 1) a
  have h2 := Nat.mod_lt (o + a - 1) ha
  omega

theorem scalar_size_pos (t : Ty) (h : isScalarType t = true) :
    0 < SCALAR_TYPE_SIZE t := by
  cases t <;> simp_all [isScalarType, SCALAR_TYPE_SIZE]

theorem array_elem_size_pos (t : Ty) (h : isArrayType t = true) :
    0 < ARRAY_ELEMENT_SIZE t := by
  cases t <;> simp_all [isArrayType, isScalarType, ARRAY_ELEMENT_SIZE]

theorem viewClass_scalar (t : Ty) (h : isArrayType t = true) :
    isScalarType (viewClass t) = true := by
  cases t <;> simp_all [isArrayType, isScalarType, viewClass]

theorem array_span_eq (t : Ty) (h : isArrayType t = true) (count : Nat) :
    count * ARRAY_VIEW_LENGTH_MULTIPLIER t * SCALAR_TYPE_SIZE (viewClass t) =
      ARRAY_ELEMENT_SIZE t * count := by
  cases t <;>
    simp_all [isArrayType, isScalarType, ARRAY_VIEW_LENGTH_MULTIPLIER,
      SCALAR_TYPE_SIZE, ARRAY_ELEMENT_SIZE, viewClass] <;>
    ring

mutual
theorem maxAlignField_pos (f : FieldDef) (a : Nat) (h : maxAlignField f = .ok a) :
    0 < a := by
  match f with
  | .scalar t =>
      unfold maxAlignField at h
      split at h
      · injection h with h1
        subst h1
        exact scalar_size_pos t (by assumption)
      · cases h
  | .arr t c =>
      unfold maxAlignField at h
      split at h
      · injection h with h1; omega
      · split at h
        · injection h with h1
          subst h1
          exact array_elem_size_pos t (by assumption)
        · cases h
  | .nested s => exact maxAlignSchema_pos s a h
theorem maxAlignSchema_pos (s : SchemaDef) (a : Nat) (h : maxAlignSchema s = .ok a) :
    0 < a := by
  match s with
  | .nil =>
      unfold maxAlignSchema at h
      injection h with h1; omega
  | .cons k f rest =>
      unfold maxAlignSchema at h
      split at h
      · cases h
      next a1 heq1 =>
        split at h
        · cases h
        next a2 heq2 =>
          injection h with h1
          have := maxAlignField_pos f a1 heq1
          omega
end

mutual
theorem computeLayoutField_wf (key : String) (f : FieldDef) (offset : Nat)
    (fl : FieldLayout) (e : Nat) (h : computeLayoutField key f offset = .ok (fl, e)) :
    offset ≤ fieldStartOff fl ∧ wfField fl ∧ e = fieldEndOff fl := by
  match f with
  | .nested s =>
      unfold computeLayoutField at h
      split at h
      · cases h
      next nested heq1 =>
        split at h
        · cases h
        next align heq2 =>
          simp only at h
          injection h with h1
          injection h1 with h1a h1b
          subst h1a h1b
          refine ⟨?_, ?_, ?_⟩
          · exact le_alignTo offset align (maxAlignSchema_pos s align heq2)
          · exact computeLayoutSchema_wf s 0 nested.1 nested.2 (by rw [heq1])
          · rfl
  | .scalar t =>
      unfold computeLayoutField at h
      split at h
      next hs =>
        simp only at h
        injection h with h1
        injection h1 with h1a h1b
        subst h1a h1b
        refine ⟨le_alignTo offset _ (scalar_size_pos t hs), hs, rfl⟩
      · cases h
  | .arr t c =>
      unfold computeLayoutField at h
      split at h
      · cases h
      next hc =>
        split at h
        next ht =>
          injection h with h1
          injection h1 with h1a h1b
          subst h1a h1b
          exact ⟨le_rfl, trivial, rfl⟩
        next ht =>
          split at h
          next ha =>
            simp only at h
            injection h with h1
            injection h1 with h1a h1b
            subst h1a h1b
            refine ⟨le_alignTo offset _ (array_elem_size_pos t ha), ha, rfl⟩
          · cases h
theorem computeLayoutSchema_wf (s : SchemaDef) (offset : Nat) (fs : LayoutFields)
    (e : Nat) (h : computeLayoutSchema s offset = .ok (fs, e)) :
    wfFields fs offset e := by
  match s with
  | .nil =>
      unfold computeLayoutSchema at h
      injection h with h1
      injection h1 with h1a h1b
      subst h1a h1b
      exact le_rfl
  | .cons key f rest =>
      unfold computeLayoutSchema at h
      split at h
      · cases h
      next fl1 heq1 =>
        split at h
        · cases h
        next r1 heq2 =>
          injection h with h1
          injection h1 with h1a h1b
          subst h1a h1b
          obtain ⟨ha, hb, hc⟩ := computeLayoutField_wf key f offset fl1.1 fl1.2 (by rw [heq1])
          refine ⟨ha, hb, ?_⟩
          have := computeLayoutSchema_wf rest fl1.2 r1.1 r1.2 (by rw [heq2])
          rw [hc] at this
          exact this
end

/-! ### `holdsVal` depends only on the field's span -/

mutual
theorem holdsVal_congr (fl : FieldLayout) (v : Value) (b1 b2 : Buf) (base : Nat)
    (hwf : wfField fl)
    (hag : agreeOn b1 b2 (base + fieldStartOff fl) (base + fieldEndOff fl))
    (hh : holdsVal fl v b1 base) : holdsVal fl v b2 base := by
  match fl, v with
  | .scalarL t off, .num x =>
      have hc := readBytes_congr b1 b2 (base + off) (SCALAR_TYPE_SIZE t)
        (agreeOn_mono b1 b2 _ _ _ _ hag (by simp only [fieldStartOff]; omega)
          (by simp only [fieldEndOff]; omega))
      show readBytes b2 (base + off) (SCALAR_TYPE_SIZE t) = storeScalar t x
      rw [← hc]
      exact hh
  | .arrayL t off count, .arrV cls elems =>
      have harr : isArrayType t = true := hwf
      have hspan := array_span_eq t harr count
      have hc := readBytes_congr b1 b2 (base + off)
        (count * ARRAY_VIEW_LENGTH_MULTIPLIER t * SCALAR_TYPE_SIZE (viewClass t))
        (agreeOn_mono b1 b2 _ _ _ _ hag (by simp only [fieldStartOff]; omega)
          (by simp only [fieldEndOff]; omega))
      show readBytes b2 (base + off)
          (count * ARRAY_VIEW_LENGTH_MULTIPLIER t * SCALAR_TYPE_SIZE (viewClass t)) =
        encodeElems (viewClass t) elems
      rw [← hc]
      exact hh
  | .utf8L off cap, .strV s =>
      have hc := readBytes_congr b1 b2 (base + off) cap
        (agreeOn_mono b1 b2 _ _ _ _ hag (by simp only [fieldStartOff]; omega)
          (by simp only [fieldEndOff]; omega))
      show readBytes b2 (base + off) cap =
        utf8Encode s ++ List.replicate (cap - (utf8Encode s).length) 0
      rw [← hc]
      exact hh
  | .nestedL off fields bl, .nestedV vs =>
      have hwf1 : wfFields fields 0 bl := hwf
      show holdsVals fields vs b2 (base + off)
      refine holdsVals_congr fields vs b1 b2 (base + off) 0 bl hwf1 ?_ hh
      exact agreeOn_mono b1 b2 _ _ _ _ hag (by simp only [fieldStartOff]; omega)
        (by simp only [fieldEndOff]; omega)
  | .scalarL _ _, .arrV _ _ => exact hh.elim
  | .scalarL _ _, .strV _ => exact hh.elim
  | .scalarL _ _, .nestedV _ => exact hh.elim
  | .arrayL _ _ _, .num _ => exact hh.elim
  | .arrayL _ _ _, .strV _ => exact hh.elim
  | .arrayL _ _ _, .nestedV _ => exact hh.elim
  | .utf8L _ _, .num _ => exact hh.elim
  | .utf8L _ _, .arrV _ _ => exact hh.elim
  | .utf8L _ _, .nestedV _ => exact hh.elim
  | .nestedL _ _ _, .num _ => exact hh.elim
  | .nestedL _ _ _, .arrV _ _ => exact hh.elim
  | .nestedL _ _ _, .strV _ => exact hh.elim
theorem holdsVals_congr (fs : LayoutFields) (vs : Values) (b1 b2 : Buf)
    (base lo hi : Nat) (hwf : wfFields fs lo hi)
    (hag : agreeOn b1 b2 (base + lo) (base + hi))
    (hh : holdsVals fs vs b1 base) : holdsVals fs vs b2 base := by
  match fs, vs with
  | .nil, .nil => trivial
  | .cons name fl frest, .cons k v vrest =>
      obtain ⟨h1, h2, h3⟩ := hwf
      obtain ⟨hh1, hh2⟩ := hh
      have hend := wfFields_le frest _ _ h3
      have hse := fieldStartOff_le_fieldEndOff fl
      constructor
      · exact holdsVal_congr fl v b1 b2 base h2
          (agreeOn_mono b1 b2 _ _ _ _ hag (by omega) (by omega)) hh1
      · exact holdsVals_congr frest vrest b1 b2 base (fieldEndOff fl) hi h3
          (agreeOn_mono b1 b2 _ _ _ _ hag (by omega) (by omega)) hh2
  | .nil, .cons _ _ _ => exact hh.elim
  | .cons _ _ _, .nil => exact hh.elim
end

/-! ### Field lookup in a layout with distinct names -/

theorem mem_namesOf_append (pre : LayoutFields) (name : String) (fl : FieldLayout)
    (rest : LayoutFields) :
    name ∈ namesOf (appendLF pre (.cons name fl rest)) := by
  match pre with
  | .nil => simp [appendLF, namesOf]
  | .cons p pf prest =>
      simp only [appendLF, namesOf, List.mem_cons]
      exact Or.inr (mem_namesOf_append prest name fl rest)

theorem lookup_append_head (pre : LayoutFields) (name : String) (fl : FieldLayout)
    (rest : LayoutFields)
    (hnd : (namesOf (appendLF pre (.cons name fl rest))).Nodup) :
    lookupField name (appendLF pre (.cons name fl rest)) = some fl := by
  match pre with
  | .nil => simp [appendLF, lookupField]
  | .cons p pf prest =>
      simp only [appendLF, namesOf, List.nodup_cons] at hnd
      obtain ⟨hp, hnd1⟩ := hnd
      have hne : name ≠ p := fun h => hp (h ▸ mem_namesOf_append prest name fl rest)
      simp only [appendLF, lookupField, if_neg hne]
      exact lookup_append_head prest name fl rest hnd1

theorem appendLF_snoc (pre : LayoutFields) (name : String) (fl : FieldLayout)
    (rest : LayoutFields) :
    appendLF pre (.cons name fl rest) =
      appendLF (appendLF pre (.cons name fl .nil)) rest := by
  match pre with
  | .nil => rfl
  | .cons p pf prest =>
      simp only [appendLF]
      rw [appendLF_snoc prest name fl rest]

/-! ### `writeFields` on a valid full value: no error, the exact bytes, and
no stores outside the record's span -/

mutual
theorem writeField_correct (key : String) (fl : FieldLayout) (v : Value)
    (buf : Buf) (base : Nat) (hwf : wfField fl) (hwn : wellNamedF fl = true)
    (hv : validFor fl v = true) :
    (writeField key fl v buf base).err = none ∧
    holdsVal fl v (writeField key fl v buf base).buf base ∧
    (∀ i, i < base + fieldStartOff fl ∨ base + fieldEndOff fl ≤ i →
      (writeField key fl v buf base).buf i = buf i) := by
  match fl, v with
  | .scalarL t off, .num x =>
      refine ⟨rfl, ?_, ?_⟩
      · have h3 := readBytes_writeBytes buf (base + off) (storeScalar t x)
        rw [storeScalar_length] at h3
        exact h3
      · intro i hi
        show writeBytes buf (base + off) (storeScalar t x) i = buf i
        rcases hi with hi | hi
        · exact writeBytes_lt _ _ _ _ (by simp only [fieldStartOff] at hi; omega)
        · refine writeBytes_ge _ _ _ _ ?_
          rw [storeScalar_length]
          simp only [fieldEndOff] at hi
          omega
  | .arrayL t off count, .arrV cls elems =>
      simp only [validFor, Bool.and_eq_true, beq_iff_eq, List.all_eq_true] at hv
      obtain ⟨⟨hcls, hlen⟩, hall⟩ := hv
      have harr : isArrayType t = true := hwf
      have hencLen : (encodeElems (viewClass t) elems).length =
          count * ARRAY_VIEW_LENGTH_MULTIPLIER t * SCALAR_TYPE_SIZE (viewClass t) := by
        rw [encodeElems_length, hlen]
      have hred : writeField key (.arrayL t off count) (.arrV cls elems) buf base =
          ⟨writeBytes buf (base + off) (encodeElems (viewClass t) elems), none⟩ := by
        simp only [writeField, if_neg (not_not_intro hcls),
          if_neg (not_not_intro hlen)]
      rw [hred]
      refine ⟨rfl, ?_, ?_⟩
      · have h3 := readBytes_writeBytes buf (base + off) (encodeElems (viewClass t) elems)
        rw [hencLen] at h3
        exact h3
      · intro i hi
        rcases hi with hi | hi
        · exact writeBytes_lt _ _ _ _ (by simp only [fieldStartOff] at hi; omega)
        · refine writeBytes_ge _ _ _ _ ?_
          rw [hencLen, array_span_eq t harr count]
          simp only [fieldEndOff] at hi
          omega
  | .utf8L off cap, .strV s =>
      simp only [validFor, Bool.and_eq_true, decide_eq_true_eq] at hv
      obtain ⟨hchars, hle⟩ := hv
      have hred : writeField key (.utf8L off cap) (.strV s) buf base =
          ⟨writeBytes buf (base + off)
            (utf8Encode s ++ List.replicate (cap - (utf8Encode s).length) 0), none⟩ := by
        simp only [writeField, if_neg (not_lt.mpr hle)]
      have hlistlen :
          (utf8Encode s ++ List.replicate (cap - (utf8Encode s).length) 0).length = cap := by
        simp only [List.length_append, List.length_replicate]
        omega
      rw [hred]
      refine ⟨rfl, ?_, ?_⟩
      · have h3 := readBytes_writeBytes buf (base + off)
          (utf8Encode s ++ List.replicate (cap - (utf8Encode s).length) 0)
        rw [hlistlen] at h3
        exact h3
      · intro i hi
        rcases hi with hi | hi
        · exact writeBytes_lt _ _ _ _ (by simp only [fieldStartOff] at hi; omega)
        · refine writeBytes_ge _ _ _ _ ?_
          rw [hlistlen]
          simp only [fieldEndOff] at hi
          omega
  | .nestedL off fields bl, .nestedV vs =>
      have hwf1 : wfFields fields 0 bl := hwf
      have hv1 : validValsFor fields vs = true := hv
      simp only [wellNamedF, Bool.and_eq_true] at hwn
      obtain ⟨hnd1, hwn1⟩ := hwn
      have hnd2 : (namesOf fields).Nodup := of_decide_eq_true hnd1
      obtain ⟨e1, e2, e3⟩ := writeValues_correct fields .nil fields vs buf
        (base + off) 0 bl rfl hnd2 hwn1 hwf1 hv1
      refine ⟨e1, e2, ?_⟩
      intro i hi
      refine e3 i ?_
      simp only [fieldStartOff, fieldEndOff] at hi
      omega
  | .scalarL _ _, .arrV _ _ => simp [validFor] at hv
  | .scalarL _ _, .strV _ => simp [validFor] at hv
  | .scalarL _ _, .nestedV _ => simp [validFor] at hv
  | .arrayL _ _ _, .num _ => simp [validFor] at hv
  | .arrayL _ _ _, .strV _ => simp [validFor] at hv
  | .arrayL _ _ _, .nestedV _ => simp [validFor] at hv
  | .utf8L _ _, .num _ => simp [validFor] at hv
  | .utf8L _ _, .arrV _ _ => simp [validFor] at hv
  | .utf8L _ _, .nestedV _ => simp [validFor] at hv
  | .nestedL _ _ _, .num _ => simp [validFor] at hv
  | .nestedL _ _ _, .arrV _ _ => simp [validFor] at hv
  | .nestedL _ _ _, .strV _ => simp [validFor] at hv
theorem writeValues_correct (fsAll pre fs : LayoutFields) (vs : Values)
    (buf : Buf) (base lo hi : Nat)
    (hsplit : fsAll = appendLF pre fs)
    (hnd : (namesOf fsAll).Nodup)
    (hwn : wellNamedLF fs = true)
    (hwf : wfFields fs lo hi) (hv : validValsFor fs vs = true) :
    (writeValues fsAll vs buf base).err = none ∧
    holdsVals fs vs (writeValues fsAll vs buf base).buf base ∧
    (∀ i, i < base + lo ∨ base + hi ≤ i →
      (writeValues fsAll vs buf base).buf i = buf i) := by
  match fs, vs with
  | .nil, .nil =>
      exact ⟨rfl, trivial, fun i _ => rfl⟩
  | .cons name fl frest, .cons k v vrest =>
      simp only [validValsFor, Bool.and_eq_true, beq_iff_eq] at hv
      obtain ⟨⟨hk, hvf⟩, hvrest⟩ := hv
      obtain ⟨h1, h2, h3⟩ := hwf
      simp only [wellNamedLF, Bool.and_eq_true] at hwn
      obtain ⟨hwnf, hwnrest⟩ := hwn
      subst hk
      have hlook : lookupField k fsAll = some fl := by
        rw [hsplit]
        exact lookup_append_head pre k fl frest (by rw [← hsplit]; exact hnd)
      obtain ⟨w1, w2, w3⟩ := writeField_correct k fl v buf base h2 hwnf hvf
      have hred : writeValues fsAll (.cons k v vrest) buf base =
          writeValues fsAll vrest (writeField k fl v buf base).buf base := by
        simp only [writeValues, hlook, w1]
      obtain ⟨r1, r2, r3⟩ := writeValues_correct fsAll
        (appendLF pre (.cons k fl .nil)) frest vrest
        (writeField k fl v buf base).buf base (fieldEndOff fl) hi
        (by rw [hsplit, appendLF_snoc]) hnd hwnrest h3 hvrest
      rw [hred]
      have hse := fieldStartOff_le_fieldEndOff fl
      have hrevhi := wfFields_le frest _ _ h3
      refine ⟨r1, ⟨?_, r2⟩, ?_⟩
      · refine holdsVal_congr fl v (writeField k fl v buf base).buf _ base h2 ?_ w2
        intro i hi1 hi2
        exact (r3 i (Or.inl (by omega))).symm
      · intro i hi
        rcases hi with hi | hi
        · rw [r3 i (Or.inl (by omega))]
          exact w3 i (Or.inl (by omega))
        · rw [r3 i (Or.inr (by omega))]
          exact w3 i (Or.inr (by omega))
  | .nil, .cons _ _ _ => simp [validValsFor] at hv
  | .cons _ _ _, .nil => simp [validValsFor] at hv
end

/-! ### `readSnapshot` recovers the value from the written bytes -/

mutual
theorem readField_correct (fl : FieldLayout) (v : Value) (buf : Buf) (base : Nat)
    (hwf : wfField fl) (hv : validFor fl v = true) (hh : holdsVal fl v buf base) :
    readField fl buf base = v := by
  match fl, v with
  | .scalarL t off, .num x =>
      have hs : isScalarType t = true := hwf
      have hx : inRange t x = true := by
        simp only [validFor, Bool.and_eq_true] at hv
        exact hv.2
      have hh1 : readBytes buf (base + off) (SCALAR_TYPE_SIZE t) = storeScalar t x := hh
      show Value.num (loadScalar t (readBytes buf (base + off) (SCALAR_TYPE_SIZE t))) =
        .num x
      rw [hh1, loadScalar_storeScalar t x hs hx]
  | .arrayL t off count, .arrV cls elems =>
      simp only [validFor, Bool.and_eq_true, beq_iff_eq, List.all_eq_true] at hv
      obtain ⟨⟨hcls, hlen⟩, hall⟩ := hv
      have harr : isArrayType t = true := hwf
      have hh1 : readBytes buf (base + off)
          (count * ARRAY_VIEW_LENGTH_MULTIPLIER t * SCALAR_TYPE_SIZE (viewClass t)) =
          encodeElems (viewClass t) elems := hh
      show Value.arrV (viewClass t)
          (decodeElems (viewClass t) (count * ARRAY_VIEW_LENGTH_MULTIPLIER t)
            (readBytes buf (base + off)
              (count * ARRAY_VIEW_LENGTH_MULTIPLIER t * SCALAR_TYPE_SIZE (viewClass t)))) =
        .arrV cls elems
      subst hcls
      rw [hh1, ← hlen,
        decodeElems_encodeElems (viewClass t) (viewClass_scalar t harr) elems hall]
  | .utf8L off cap, .strV s =>
      simp only [validFor, Bool.and_eq_true, decide_eq_true_eq, List.all_eq_true] at hv
      obtain ⟨hchars, hle⟩ := hv
      have hvc : ∀ c ∈ s, validChar c = true := by
        intro c hc
        have := hchars c hc
        simp only [Bool.and_eq_true, decide_eq_true_eq] at this
        exact this.1
      have hnz : ∀ c ∈ s, c ≠ 0 := by
        intro c hc
        have := hchars c hc
        simp only [Bool.and_eq_true, decide_eq_true_eq] at this
        exact this.2
      have hh1 : readBytes buf (base + off) cap =
          utf8Encode s ++ List.replicate (cap - (utf8Encode s).length) 0 := hh
      show Value.strV (utf8Decode (takeUntilZero (readBytes buf (base + off) cap))) =
        .strV s
      rw [hh1, takeUntilZero_append_no_zero _ _ (utf8Encode_no_zero s hnz)
        (takeUntilZero_replicate_zero _), utf8Decode_encode s hvc]
  | .nestedL off fields bl, .nestedV vs =>
      have hwf1 : wfFields fields 0 bl := hwf
      have hv1 : validValsFor fields vs = true := hv
      have hh1 : holdsVals fields vs buf (base + off) := hh
      show Value.nestedV (readValues fields buf (base + off)) = .nestedV vs
      rw [readValues_correct fields vs buf (base + off) 0 bl hwf1 hv1 hh1]
  | .scalarL _ _, .arrV _ _ => simp [validFor] at hv
  | .scalarL _ _, .strV _ => simp [validFor] at hv
  | .scalarL _ _, .nestedV _ => simp [validFor] at hv
  | .arrayL _ _ _, .num _ => simp [validFor] at hv
  | .arrayL _ _ _, .strV _ => simp [validFor] at hv
  | .arrayL _ _ _, .nestedV _ => simp [validFor] at hv
  | .utf8L _ _, .num _ => simp [validFor] at hv
  | .utf8L _ _, .arrV _ _ => simp [validFor] at hv
  | .utf8L _ _, .nestedV _ => simp [validFor] at hv
  | .nestedL _ _ _, .num _ => simp [validFor] at hv
  | .nestedL _ _ _, .arrV _ _ => simp [validFor] at hv
  | .nestedL _ _ _, .strV _ => simp [validFor] at hv
theorem readValues_correct (fs : LayoutFields) (vs : Values) (buf : Buf)
    (base lo hi : Nat) (hwf : wfFields fs lo hi) (hv : validValsFor fs vs = true)
    (hh : holdsVals fs vs buf base) : readValues fs buf base = vs := by
  match fs, vs with
  | .nil, .nil => rfl
  | .cons name fl frest, .cons k v vrest =>
      simp only [validValsFor, Bool.and_eq_true, beq_iff_eq] at hv
      obtain ⟨⟨hk, hvf⟩, hvrest⟩ := hv
      obtain ⟨h1, h2, h3⟩ := hwf
      obtain ⟨hh1, hh2⟩ := hh
      subst hk
      show Values.cons k (readField fl buf base) (readValues frest buf base) =
        .cons k v vrest
      rw [readField_correct fl v buf base h2 hvf hh1,
        readValues_correct frest vrest buf base (fieldEndOff fl) hi h3 hvrest hh2]
  | .nil, .cons _ _ _ => simp [validValsFor] at hv
  | .cons _ _ _, .nil => simp [validValsFor] at hv
end

end Schema

/-- **C9.** `computeLayout` lays fields out in declaration order with natural
alignment and no trailing padding; on the S3 schema it yields
`byte_length = 40` with offsets `flag = 0`, `label = 1`, `vector = 12`,
`nested = 24`, and within `nested` `count = 0`, `energy = 8`. -/
theorem compute_layout_example :
    Schema.computeLayout exampleSchema =
      .ok (.cons ("flag") (.scalarL .uint8 0)
        (.cons ("label") (.utf8L 1 10)
          (.cons ("vector") (.arrayL .float32 12 3)
            (.cons ("nested")
              (.nestedL 24
                (.cons ("count") (.scalarL .uint16 0)
                  (.cons ("energy") (.scalarL .float64 8) .nil))
                16)
              .nil))), 40) := rfl

/-- **C10.** `computeLayout` of the empty schema yields `byte_length = 0`;
`createSharedObject(id, {})` therefore takes the schema path, fails inside
`SharedObject.create` with the positive-byte-length error, and registers
nothing under the id. -/
theorem empty_schema_create_fails :
    Schema.computeLayout Schema.SchemaDef.nil = .ok (.nil, 0) ∧
    (∀ (reg : List String) (id : String), id ∉ reg →
      Runtime.createSharedObject reg id (.schema .nil) =
        (.error (.byteLengthNotPositive 0), reg)) := by
  refine ⟨rfl, ?_⟩
  intro reg id hid
  simp [Runtime.createSharedObject, Runtime.configByteLength, Runtime.lookupDef,
    Runtime.finishCreate, Schema.computeLayout, Schema.computeLayoutSchema,
    SO.create, hid]

/-- In `writeFields`, every validation of a scalar, array or UTF-8 field runs
before that field's store: when such a field fails, the buffer it was handed
is returned untouched. -/
theorem writeField_leaf_err_no_mutation (key : String) (fl : Schema.FieldLayout)
    (v : Schema.Value) (buf : Schema.Buf) (base : Nat) (e : Schema.SchemaErr)
    (hleaf : Schema.isLeaf fl = true)
    (h : (Schema.writeField key fl v buf base).err = some e) :
    (Schema.writeField key fl v buf base).buf = buf := by
  cases fl with
  | scalarL t off => cases v <;> simp_all [Schema.writeField]
  | arrayL t off count =>
      cases v <;> simp only [Schema.writeField] at h ⊢ <;> try rfl
      split_ifs at h ⊢ <;> simp_all
  | utf8L off cap =>
      cases v <;> simp only [Schema.writeField] at h ⊢ <;> try rfl
      split_ifs at h ⊢ <;> simp_all
  | nestedL off fields bl => simp [Schema.isLeaf] at hleaf

/-- **C6 (amended).** When `writeFields` fails it raises a schema error;
the failing entry's own leaf write has not touched the buffer, and the final
buffer is exactly the result of successfully writing the entries preceding
the failing one (those earlier writes persist — the call is not atomic
across fields). -/
theorem write_fields_failure_spec (fields : Schema.LayoutFields)
    (vs : Schema.Values) (buf : Schema.Buf) (base : Nat) (e : Schema.SchemaErr)
    (h : (Schema.writeValues fields vs buf base).err = some e) :
    ∃ (pre : Schema.Values) (k : String) (v : Schema.Value) (post : Schema.Values)
      (bufPre : Schema.Buf),
      vs = Schema.appendValues pre (.cons k v post) ∧
      Schema.writeValues fields pre buf base = ⟨bufPre, none⟩ ∧
      Schema.writeValues fields (.cons k v .nil) bufPre base =
        ⟨(Schema.writeValues fields vs buf base).buf, some e⟩ ∧
      (∀ fl, Schema.lookupField k fields = some fl → Schema.isLeaf fl = true →
        (Schema.writeValues fields vs buf base).buf = bufPre) := by
  match vs with
  | .nil => simp [Schema.writeValues] at h
  | .cons k v rest =>
    rcases hl : Schema.lookupField k fields with _ | fl
    · have hres : Schema.writeValues fields (.cons k v rest) buf base =
          ⟨buf, some (.unknownField k)⟩ := by
        simp [Schema.writeValues, hl]
      have he : e = .unknownField k := by
        rw [hres] at h
        simpa using h.symm
      subst he
      refine ⟨.nil, k, v, rest, buf, rfl, rfl, ?_, ?_⟩
      · rw [hres]
        simp [Schema.writeValues, hl]
      · intro fl hfl
        rw [hl] at hfl
        cases hfl
    · rcases hr : (Schema.writeField k fl v buf base).err with _ | e1
      · have hres : Schema.writeValues fields (.cons k v rest) buf base =
            Schema.writeValues fields rest (Schema.writeField k fl v buf base).buf base := by
          simp [Schema.writeValues, hl, hr]
        rw [hres] at h
        obtain ⟨pre, k1, v1, post, bufPre, h1, h2, h3, h4⟩ :=
          write_fields_failure_spec fields rest (Schema.writeField k fl v buf base).buf base e h
        refine ⟨.cons k v pre, k1, v1, post, bufPre, by rw [h1]; rfl, ?_, ?_, ?_⟩
        · simp [Schema.writeValues, hl, hr, h2]
        · rw [hres]; exact h3
        · intro fl1 hfl1 hleaf1
          rw [hres]; exact h4 fl1 hfl1 hleaf1
      · have hres : Schema.writeValues fields (.cons k v rest) buf base =
            ⟨(Schema.writeField k fl v buf base).buf, some e1⟩ := by
          simp [Schema.writeValues, hl, hr]
        have he : e = e1 := by
          rw [hres] at h
          simpa using h.symm
        subst he
        refine ⟨.nil, k, v, rest, buf, rfl, rfl, ?_, ?_⟩
        · rw [hres]
          simp [Schema.writeValues, hl, hr]
        · intro fl1 hfl1 hleaf1
          rw [hl] at hfl1
          cases hfl1
          rw [hres]
          exact writeField_leaf_err_no_mutation k fl v buf base e hleaf1 hr

/-- **C8 (amended).** For every layout computed from a schema (with the
distinct field names every JavaScript object guarantees) and every
schema-valid full value — numeric fields in range (float fields read as
their bit patterns), typed arrays of the declared class and exact view
length, UTF-8 strings without NUL characters whose encoding fits the
capacity — `writeFields` succeeds and `readSnapshot` of the written buffer
returns exactly the value. -/
theorem schema_roundtrip (s : Schema.SchemaDef) (fs : Schema.LayoutFields)
    (bl : Nat) (vs : Schema.Values) (buf : Schema.Buf)
    (hcl : Schema.computeLayout s = .ok (fs, bl))
    (hnames : (Schema.nodupNames fs && Schema.wellNamedLF fs) = true)
    (hv : Schema.validValsFor fs vs = true) :
    (Schema.writeValues fs vs buf 0).err = none ∧
    Schema.readValues fs (Schema.writeValues fs vs buf 0).buf 0 = vs := by
  simp only [Bool.and_eq_true] at hnames
  obtain ⟨hnd, hwn⟩ := hnames
  have hwf := Schema.computeLayoutSchema_wf s 0 fs bl hcl
  obtain ⟨w1, w2, w3⟩ := Schema.writeValues_correct fs .nil fs vs buf 0 0 bl rfl
    (of_decide_eq_true hnd) hwn hwf hv
  exact ⟨w1, Schema.readValues_correct fs vs _ 0 0 bl hwf hv w2⟩

/-- **C8 (counterexample).** The round trip fails as universally stated: the
string `"\u0000"` has UTF-8 byte length 1 ≤ 2, so it is schema-valid for a
two-byte UTF-8 field and `writeFields` accepts it, but `readSnapshot`
truncates at the first NUL byte and returns `""`. -/
theorem schema_roundtrip_nul_fails :
    Schema.computeLayout (.cons ("s") (.arr .utf8 2) .nil) =
      .ok (.cons ("s") (.utf8L 0 2) .nil, 2) ∧
    (Schema.utf8Encode [0]).length ≤ 2 ∧
    (Schema.writeValues (.cons ("s") (.utf8L 0 2) .nil)
      (.cons ("s") (.strV [0]) .nil) Schema.zeroBuf 0).err = none ∧
    Schema.readValues (.cons ("s") (.utf8L 0 2) .nil)
      (Schema.writeValues (.cons ("s") (.utf8L 0 2) .nil)
        (.cons ("s") (.strV [0]) .nil) Schema.zeroBuf 0).buf 0 =
      .cons ("s") (.strV []) .nil ∧
    Schema.Values.cons ("s") (.strV []) .nil ≠
      .cons ("s") (.strV [0]) .nil := by
  refine ⟨rfl, by decide, rfl, rfl, by simp⟩

/-- Witness for the amended C8: the concrete value `rtValues` (signed
scalar, a multi-byte string, a byte array, a nested record) round-trips
through the layout of `rtSchema`. -/
theorem schema_roundtrip_witness :
    Schema.computeLayout rtSchema = .ok (rtLayout, 12) ∧
    (Schema.nodupNames rtLayout && Schema.wellNamedLF rtLayout) = true ∧
    Schema.validValsFor rtLayout rtValues = true ∧
    ((Schema.writeValues rtLayout rtValues Schema.zeroBuf 0).err = none ∧
     Schema.readValues rtLayout
       (Schema.writeValues rtLayout rtValues Schema.zeroBuf 0).buf 0 = rtValues) :=
  ⟨rfl, by decide, by decide,
    schema_roundtrip rtSchema rtLayout 12 rtValues Schema.zeroBuf rfl
      (by decide) (by decide)⟩

/-- **C6 (counterexample).** A failing `writeFields` call can still mutate
the buffer: on layout `{a: u8, b: u8}` the partial values `{a: 7, b: <string>}`
fail on `b` with a schema error, yet byte 0 of the buffer — zero beforehand —
now holds 7. -/
theorem write_fields_failure_mutates :
    (Schema.writeValues
      (.cons ("a") (.scalarL .uint8 0) (.cons ("b") (.scalarL .uint8 1) .nil))
      (.cons ("a") (.num 7) (.cons ("b") (.strV []) .nil))
      Schema.zeroBuf 0).err = some (.expectedNumber ("b")) ∧
    (Schema.writeValues
      (.cons ("a") (.scalarL .uint8 0) (.cons ("b") (.scalarL .uint8 1) .nil))
      (.cons ("a") (.num 7) (.cons ("b") (.strV []) .nil))
      Schema.zeroBuf 0).buf 0 = 7 ∧
    Schema.zeroBuf 0 = 0 := by
  refine ⟨rfl, ?_, rfl⟩
  decide

/-- Witness for the amended C6: the failing call of the counterexample indeed
decomposes into the successful write of `{a: 7}` followed by the rejected
leaf entry `b`. -/
theorem write_fields_failure_spec_witness :
    (Schema.writeValues
      (.cons ("a") (.scalarL .uint8 0) (.cons ("b") (.scalarL .uint8 1) .nil))
      (.cons ("a") (.num 7) (.cons ("b") (.strV []) .nil))
      Schema.zeroBuf 0).err = some (.expectedNumber ("b")) ∧
    ∃ (pre : Schema.Values) (k : String) (v : Schema.Value) (post : Schema.Values)
      (bufPre : Schema.Buf),
      (Schema.Values.cons ("a") (.num 7) (.cons ("b") (.strV []) .nil)) =
        Schema.appendValues pre (.cons k v post) ∧
      Schema.writeValues
        (.cons ("a") (.scalarL .uint8 0) (.cons ("b") (.scalarL .uint8 1) .nil))
        pre Schema.zeroBuf 0 = ⟨bufPre, none⟩ ∧
      Schema.writeValues
        (.cons ("a") (.scalarL .uint8 0) (.cons ("b") (.scalarL .uint8 1) .nil))
        (.cons k v .nil) bufPre 0 =
        ⟨(Schema.writeValues
            (.cons ("a") (.scalarL .uint8 0) (.cons ("b") (.scalarL .uint8 1) .nil))
            (.cons ("a") (.num 7) (.cons ("b") (.strV []) .nil))
            Schema.zeroBuf 0).buf, some (.expectedNumber ("b"))⟩ ∧
      (∀ fl, Schema.lookupField k
          (.cons ("a") (.scalarL .uint8 0) (.cons ("b") (.scalarL .uint8 1) .nil)) =
          some fl → Schema.isLeaf fl = true →
        (Schema.writeValues
          (.cons ("a") (.scalarL .uint8 0) (.cons ("b") (.scalarL .uint8 1) .nil))
          (.cons ("a") (.num 7) (.cons ("b") (.strV []) .nil))
          Schema.zeroBuf 0).buf = bufPre) :=
  ⟨rfl, write_fields_failure_spec _ _ _ _ _ rfl⟩

/-- Witness for C10: creating from the empty schema in an empty registry
fails with the positive-byte-length error and leaves the registry empty. -/
theorem empty_schema_create_fails_witness :
    Runtime.createSharedObject [] ("x") (.schema .nil) =
      (.error (.byteLengthNotPositive 0), []) :=
  empty_schema_create_fails.2 [] ("x") (by simp)

/-- Witness for C7: a quiescent read after the first publish returns the
snapshot, and a contended schedule of four torn observations returns `none`
with every sequence check having failed. -/
theorem read_latest_bounded_retries_witness :
    SO.readLatest (fun _ => ⟨1, 1, 1⟩) = some (1, 1) ∧
    SO.readLatest (fun _ => ⟨0, -1, 0⟩) = none ∧
    (∀ i, i < 4 → ((fun (_ : Nat) => (⟨1, 1, 2⟩ : SO.ReadObs)) i).seq1 ≠
      ((fun (_ : Nat) => (⟨1, 1, 2⟩ : SO.ReadObs)) i).seq2) := by
  have h := read_latest_bounded_retries
  refine ⟨?_, h.2.1 ⟨0, -1, 0⟩ (by decide), ?_⟩
  · have := h.1 ⟨1, 1, 1⟩ (by decide) rfl
    simpa using this
  · exact h.2.2 (fun _ => ⟨1, 1, 2⟩) (by decide)
      (fun i _ => (by decide : (0 : Int) ≤ 1))

end Sabus
